import Mathlib

/-!
# A verification development for the `tabgroup` widget

Shallow embedding of `ui/components/tabgroup/tabgroup.go`.

Conventions of the embedding.

* Go `int` is the 64-bit two's complement integer: every `+` and `-` of the source is
  followed by `wrapInt`, and `%` is `goRem` (truncated remainder, run-time panic on a zero
  divisor).  A Go slice never holds more than `maxInt` elements; theorems that need it carry
  that bound as a hypothesis on `items.length`.
* `items []*TabItem` is a list of pointers.  The pointed-to tab items live in a store
  (`Heap`), so that `tg.items` itself and the state of the panels are kept apart.  All item
  pointers are taken to be non-nil.
* A method that returns its receiver (`return tg`) takes the receiver pointer `self` and
  hands it back as its return value; the state of the receiver is passed explicitly.
* The collaborators that are not part of the package (the key matcher, `tea.Batch`, the
  panels behind `ui.Groupable`, the `lipgloss` style engine) are the fields of `Host`.
  Panels are taken to be total (they do not panic) and to touch only their own state.
-/

namespace tabgroup

/-! ## Machine integers and run-time panics -/

/-- Largest value of a Go `int` on a 64-bit target. -/
def maxInt : Int := 9223372036854775807

/-- Two's complement wrap of a mathematical integer into the range of a 64-bit Go `int`. -/
def wrapInt (x : Int) : Int :=
  (x + 9223372036854775808) % 18446744073709551616 - 9223372036854775808

/-- Run-time panics of the Go code that the embedding tracks. -/
inductive Panic where
  | integerDivideByZero
  | indexOutOfRange
  deriving DecidableEq, Repr

/-- Go's `a % b` on `int`: a zero divisor panics, otherwise the remainder of the
truncated division (its sign follows the dividend). -/
def goRem (a b : Int) : Except Panic Int :=
  if b = 0 then Except.error Panic.integerDivideByZero else Except.ok (Int.tmod a b)

/-! ## Data model -/

/-- Pointers (to a `TabItem`, or to the `TabGroup` itself). -/
abbrev Ptr := Nat

/-- The record behind `key.Binding`: the bound keys, the help text, the disabled flag. -/
structure Binding where
  keys : List String
  helpKey : String
  helpDesc : String
  disabled : Bool
  deriving DecidableEq, Repr

/-- `key.NewBinding(key.WithKeys(k), key.WithHelp(hk, hd))` for a single key. -/
def NewBinding (k hk hd : String) : Binding :=
  { keys := [k], helpKey := hk, helpDesc := hd, disabled := false }

structure KeyMap where
  TabNext : Binding
  TabPrev : Binding
  deriving DecidableEq, Repr

structure Styles (S : Type) where
  FocusedBorder : S
  BlurredBorder : S
  Navbar : S
  NavbarTitleUnselected : S
  NavbarTitleSelected : S
  deriving DecidableEq, Repr

/-- A tab item: the embedded `ui.Groupable` panel (its state), the title, the flag. -/
structure TabItem (P : Type) where
  Groupable : P
  Title : String
  Active : Bool
  deriving DecidableEq, Repr

structure TabGroup (S : Type) where
  KeyMap : KeyMap
  items : List Ptr
  currItemIndex : Int
  width : Int
  height : Int
  focused : Bool
  styles : Styles S
  deriving DecidableEq, Repr

/-- The store of tab items that the pointers in `items` refer to. -/
abbrev Heap (P : Type) := Ptr → TabItem P

/-- A `tea.Msg`: either a `tea.KeyMsg` or a message of any other dynamic type. -/
inductive Msg (K O : Type) where
  | key (k : K)
  | other (o : O)
  deriving DecidableEq, Repr

/-- A `tea.Cmd` is a function value or `nil`; `none` is `nil`. -/
abbrev Cmd (C : Type) := Option C

/-- The collaborators outside the package, as the source calls them. -/
structure Host (K O C P S : Type) where
  /-- The function `key.Matches(msg, binding)`. -/
  keyMatches : K → Binding → Bool
  /-- The function `tea.Batch(cmds...)`. -/
  batch : List (Cmd C) → Cmd C
  /-- The panel method `Init()`: the panel afterwards and the returned command. -/
  itemInit : P → P × Cmd C
  /-- The panel method `Update(msg)`: the panel afterwards and the returned command
  (the returned model is dropped by the caller). -/
  itemUpdate : P → Msg K O → P × Cmd C
  /-- The panel method `SetSize(w, h)`. -/
  itemSetSize : P → Int → Int → P
  /-- The panel method `View()`. -/
  itemView : P → String
  /-- The function `lipgloss.NewStyle()`. -/
  newStyle : S
  /-- The style method `Margin(top, right, bottom, left)`. -/
  margin : S → Int → Int → Int → Int → S
  /-- The style method `Padding(top, right, bottom, left)`. -/
  padding : S → Int → Int → Int → Int → S
  /-- The style method `Background(lipgloss.Color(c))`. -/
  background : S → String → S
  /-- The style method `Foreground(lipgloss.Color(c))`. -/
  foreground : S → String → S
  /-- The style method `Width(w)`. -/
  styleWidth : S → Int → S
  /-- The style method `GetHorizontalFrameSize()`. -/
  getHorizontalFrameSize : S → Int
  /-- The style method `Render(text)`. -/
  render : S → String → String
  /-- The function `lipgloss.JoinVertical(lipgloss.Top, strs...)`. -/
  joinVerticalTop : List String → String

/-- An `Option` of the source: a function applied to the group under construction. -/
abbrev TabOption (S : Type) := TabGroup S → TabGroup S

section Operations

variable {K O C P S : Type}

/-! ## Construction and registration -/

def DefaultKeyMap : KeyMap :=
  { TabNext := NewBinding "alt+right" "alt+right" "Next tab"
    TabPrev := NewBinding "alt+left" "alt+left" "Prev tab" }

def DefaultStyles (h : Host K O C P S) : Styles S :=
  { FocusedBorder := h.margin h.newStyle 2 0 0 0
    BlurredBorder := h.margin h.newStyle 2 0 0 0
    Navbar := h.padding h.newStyle 0 1 0 1
    NavbarTitleUnselected :=
      h.padding (h.foreground (h.background h.newStyle "#373B41") "240") 0 2 0 2
    NavbarTitleSelected :=
      h.padding (h.foreground (h.background h.newStyle "5") "#ffffff") 0 2 0 2 }

/-- The constructor `New(opts...)`: the zero-valued struct with an empty item slice, then the
default key map and the default styles.  The body of the source never reads `opts`. -/
def New (h : Host K O C P S) (_opts : List (TabOption S)) : TabGroup S :=
  let tg : TabGroup S :=
    { KeyMap := { TabNext := ⟨[], "", "", false⟩, TabPrev := ⟨[], "", "", false⟩ }
      items := []
      currItemIndex := 0
      width := 0
      height := 0
      focused := false
      styles := DefaultStyles h }
  let tg := { tg with KeyMap := DefaultKeyMap }
  let tg := { tg with styles := DefaultStyles h }
  tg

def Items (tg : TabGroup S) : List Ptr := tg.items

/-- The method `AddItem(item)`: the receiver afterwards and the returned pointer. -/
def AddItem (self : Ptr) (tg : TabGroup S) (item : Ptr) : TabGroup S × Ptr :=
  ({ tg with items := tg.items ++ [item] }, self)

/-! ## Selection state machine -/

def nextTab (tg : TabGroup S) : Except Panic (TabGroup S) := do
  let r ← goRem (wrapInt (tg.currItemIndex + 1)) (tg.items.length : Int)
  pure { tg with currItemIndex := r }

def prevTab (tg : TabGroup S) : Except Panic (TabGroup S) := do
  let r ← goRem (wrapInt (tg.currItemIndex - 1)) (tg.items.length : Int)
  let tg := { tg with currItemIndex := r }
  if tg.currItemIndex < 0 then
    pure { tg with currItemIndex := wrapInt ((tg.items.length : Int) - 1) }
  else
    pure tg

/-! ## Input routing -/

/-- The loop of `updateTabItems` over the remaining item pointers: each item processes the
message in place, its returned model is dropped, its command is appended to `cmds`. -/
def updateTabItemsLoop (h : Host K O C P S) (msg : Msg K O) :
    List Ptr → Heap P → List (Cmd C) → Heap P × List (Cmd C)
  | [], heap, cmds => (heap, cmds)
  | item :: rest, heap, cmds =>
    let r := h.itemUpdate (heap item).Groupable msg
    let heap := Function.update heap item { heap item with Groupable := r.1 }
    updateTabItemsLoop h msg rest heap (cmds ++ [r.2])

def updateTabItems (h : Host K O C P S) (tg : TabGroup S) (heap : Heap P) (msg : Msg K O) :
    Heap P × List (Cmd C) :=
  updateTabItemsLoop h msg tg.items heap []

/-- What `Update` leaves behind and returns: the receiver, the store of items, the returned
`tea.Model` (a pointer) and the returned command. -/
structure UpdateResult (C P S : Type) where
  tg : TabGroup S
  heap : Heap P
  model : Ptr
  cmd : Cmd C

def Update (h : Host K O C P S) (self : Ptr) (tg : TabGroup S) (heap : Heap P)
    (msg : Msg K O) : Except Panic (UpdateResult C P S) := do
  let cmds : List (Cmd C) := []
  let tg ← match msg with
    | Msg.key k =>
      if h.keyMatches k tg.KeyMap.TabNext then nextTab tg
      else if h.keyMatches k tg.KeyMap.TabPrev then prevTab tg
      else pure tg
    | Msg.other _ => pure tg
  let r := updateTabItems h tg heap msg
  let cmds := cmds ++ r.2
  pure { tg := tg, heap := r.1, model := self, cmd := h.batch cmds }

/-! ## Initialisation, focus and sizing -/

/-- The loop of `Init` over the remaining item pointers. -/
def InitLoop (h : Host K O C P S) : List Ptr → Heap P → List (Cmd C) → Heap P × List (Cmd C)
  | [], heap, cmds => (heap, cmds)
  | item :: rest, heap, cmds =>
    let r := h.itemInit (heap item).Groupable
    let heap := Function.update heap item { heap item with Groupable := r.1 }
    InitLoop h rest heap (cmds ++ [r.2])

/-- The method `Init()`: the store afterwards and the returned command. -/
def Init (h : Host K O C P S) (tg : TabGroup S) (heap : Heap P) : Heap P × Cmd C :=
  let r := InitLoop h tg.items heap []
  (r.1, h.batch r.2)

def Focus (tg : TabGroup S) : TabGroup S × Cmd C :=
  ({ tg with focused := true }, none)

def Blur (tg : TabGroup S) : TabGroup S :=
  { tg with focused := false }

/-- The loop of `SetSize` over the remaining item pointers. -/
def SetSizeLoop (h : Host K O C P S) (w ht : Int) : List Ptr → Heap P → Heap P
  | [], heap => heap
  | item :: rest, heap =>
    let heap := Function.update heap item
      { heap item with Groupable := h.itemSetSize (heap item).Groupable w ht }
    SetSizeLoop h w ht rest heap

def SetSize (h : Host K O C P S) (tg : TabGroup S) (heap : Heap P) (width height : Int) :
    TabGroup S × Heap P :=
  let tg := { tg with
    width := wrapInt (width - h.getHorizontalFrameSize tg.styles.FocusedBorder) }
  let tg := { tg with height := height }
  let tg := { tg with styles :=
    { tg.styles with FocusedBorder := h.styleWidth tg.styles.FocusedBorder tg.width } }
  let tg := { tg with styles :=
    { tg.styles with BlurredBorder := h.styleWidth tg.styles.BlurredBorder tg.width } }
  let tg := { tg with styles :=
    { tg.styles with Navbar := h.styleWidth tg.styles.Navbar tg.width } }
  (tg, SetSizeLoop h tg.width tg.height tg.items heap)

def Width (tg : TabGroup S) : Int := tg.width

def Height (tg : TabGroup S) : Int := tg.height

/-! ## Rendering -/

/-- The function `strings.TrimRight(s, cutset)`: drops every trailing character of `s` that
occurs in `cutset`. -/
def TrimRight (s cutset : String) : String :=
  String.mk (s.data.reverse.dropWhile (fun c => cutset.data.contains c)).reverse

/-- The loop of `View` over the remaining item pointers, `i` being the index of the first of
them: every title is rendered unselected, the one at `currItemIndex` selected instead, and
followed by the separator. -/
def ViewLoop (h : Host K O C P S) (tg : TabGroup S) (heap : Heap P) :
    Nat → List Ptr → String → String
  | _, [], navbar => navbar
  | i, item :: rest, navbar =>
    let tabTitle := h.render tg.styles.NavbarTitleUnselected (heap item).Title
    let tabTitle :=
      if tg.currItemIndex = (i : Int) then
        h.render tg.styles.NavbarTitleSelected (heap item).Title
      else tabTitle
    ViewLoop h tg heap (i + 1) rest (navbar ++ (tabTitle ++ " • "))

/-- The slice access `items[i]` for a Go `int` index: out of range panics. -/
def index (items : List Ptr) (i : Int) : Except Panic Ptr :=
  if 0 ≤ i then
    match items.get? i.toNat with
    | some p => Except.ok p
    | none => Except.error Panic.indexOutOfRange
  else Except.error Panic.indexOutOfRange

def View (h : Host K O C P S) (tg : TabGroup S) (heap : Heap P) : Except Panic String := do
  let navbar := ViewLoop h tg heap 0 (Items tg) ""
  let navbar := h.render tg.styles.Navbar (TrimRight navbar "• ")
  if tg.items.length > 0 then
    let item ← index tg.items tg.currItemIndex
    pure (h.render tg.styles.FocusedBorder
      (h.joinVerticalTop [navbar, h.itemView (heap item).Groupable]))
  else
    pure (h.render tg.styles.FocusedBorder navbar)

end Operations

/-! ## A concrete host, used to evaluate the definitions on examples -/

/-- A toy style: a tag put around the rendered text, a frame size, the assigned width. -/
structure DemoStyle where
  tag : String
  frame : Int
  width : Int
  deriving DecidableEq, Repr

/-- A toy panel: it records the messages it was sent, its size and how often it was
initialised. -/
structure DemoPanel where
  log : List (Msg String Nat)
  size : Int × Int
  inits : Nat
  deriving DecidableEq, Repr

/-- The matcher of `bubbles/key` on a key message given by its string: some key of the
binding equals it and the binding is enabled. -/
def demoKeyMatches (k : String) (b : Binding) : Bool :=
  b.keys.contains k && !b.disabled && !b.keys.isEmpty

def demoHost : Host String Nat (List Nat) DemoPanel DemoStyle where
  keyMatches := demoKeyMatches
  batch := fun cmds => if (cmds.filterMap id).isEmpty then none else some (cmds.filterMap id).flatten
  itemInit := fun p => ({ p with inits := p.inits + 1 }, none)
  itemUpdate := fun p m => ({ p with log := p.log ++ [m] }, some [p.log.length])
  itemSetSize := fun p w ht => { p with size := (w, ht) }
  itemView := fun p => "panel" ++ String.mk (List.replicate p.log.length '*')
  newStyle := { tag := "", frame := 0, width := 0 }
  margin := fun s _ r _ l => { s with frame := s.frame + r + l }
  padding := fun s _ r _ l => { s with frame := s.frame + r + l }
  background := fun s c => { s with tag := s.tag ++ "b" ++ c }
  foreground := fun s c => { s with tag := s.tag ++ "f" ++ c }
  styleWidth := fun s w => { s with width := w }
  getHorizontalFrameSize := fun s => s.frame
  render := fun s t => s.tag ++ "<" ++ t ++ ">"
  joinVerticalTop := fun l => String.intercalate "\n" l

/-- The titles of the example items: A, B and C at the pointers 1, 2 and 3. -/
def demoTitle : Ptr → String
  | 1 => "A"
  | 2 => "B"
  | 3 => "C"
  | _ => "tab"

/-- A store in which the item at pointer `p` has the title `demoTitle p` and a fresh panel. -/
def demoHeap : Heap DemoPanel :=
  fun p => { Groupable := { log := [], size := (0, 0), inits := 0 }, Title := demoTitle p,
             Active := false }

/-- The group `New()` with the items at the pointers 1, 2 and 3 added in that order. -/
def demoGroup : TabGroup DemoStyle :=
  (AddItem 0 (AddItem 0 (AddItem 0 (New demoHost []) 1).1 2).1 3).1

/-! ## The range invariant and sequences of operations -/

/-- The index invariant of the data model: `0 <= currItemIndex < len(items)`. -/
def InRange {S : Type} (tg : TabGroup S) : Prop :=
  0 ≤ tg.currItemIndex ∧ tg.currItemIndex < (tg.items.length : Int)

instance {S : Type} (tg : TabGroup S) : Decidable (InRange tg) := by
  unfold InRange; infer_instance

/-- The length of `items` fits a Go `int`, as the length of every Go slice does. -/
def LenFits {S : Type} (tg : TabGroup S) : Prop :=
  (tg.items.length : Int) ≤ maxInt

instance {S : Type} (tg : TabGroup S) : Decidable (LenFits tg) := by
  unfold LenFits; infer_instance

/-- The operations on the selection state: the two navigation steps and `AddItem`. -/
inductive Op where
  | next
  | prev
  | add (item : Ptr)
  deriving DecidableEq, Repr

/-- One operation applied to the group at `self`. -/
def step {S : Type} (self : Ptr) (tg : TabGroup S) : Op → Except Panic (TabGroup S)
  | Op.next => nextTab tg
  | Op.prev => prevTab tg
  | Op.add item => pure (AddItem self tg item).1

/-- A sequence of operations applied from left to right; a panic ends the run. -/
def run {S : Type} (self : Ptr) : List Op → TabGroup S → Except Panic (TabGroup S)
  | [], tg => pure tg
  | op :: ops, tg => step self tg op >>= run self ops

/-- The method `nextTab` called `n` times in a row. -/
def nextTabTimes {S : Type} : Nat → TabGroup S → Except Panic (TabGroup S)
  | 0, tg => pure tg
  | n + 1, tg => nextTab tg >>= nextTabTimes n

/-- A sequence of messages handed to `Update` one after the other, each call on the state
the previous one left; a panic ends the sequence. -/
def UpdateAll {K O C P S : Type} (h : Host K O C P S) (self : Ptr) :
    List (Msg K O) → TabGroup S → Heap P → Except Panic (TabGroup S × Heap P)
  | [], tg, heap => pure (tg, heap)
  | m :: ms, tg, heap => Update h self tg heap m >>= fun r => UpdateAll h self ms r.tg r.heap

/-- The broadcast of §4.3 in the words of the specification: every item of the list, in
item order, processes the message once; the result is the store afterwards and the list of
the returned commands in item order. -/
def forwardAll {K O C P S : Type} (h : Host K O C P S) (msg : Msg K O) :
    List Ptr → Heap P → Heap P × List (Cmd C)
  | [], heap => (heap, [])
  | item :: rest, heap =>
    let r := h.itemUpdate (heap item).Groupable msg
    let after := forwardAll h msg rest
      (Function.update heap item { heap item with Groupable := r.1 })
    (after.1, r.2 :: after.2)

/-- The state `Update` returns once the key routing has left the group `tg1`. -/
def afterRouting {K O C P S : Type} (h : Host K O C P S) (self : Ptr) (heap : Heap P)
    (msg : Msg K O) (tg1 : TabGroup S) : UpdateResult C P S :=
  { tg := tg1
    heap := (updateTabItems h tg1 heap msg).1
    model := self
    cmd := h.batch ([] ++ (updateTabItems h tg1 heap msg).2) }

/-! ## The specification's descriptions of construction, initialisation and rendering -/

/-- The default group of §4.1 in the words of the specification: an empty item list, the
index 0, the default key bindings and the default styles. -/
def defaultGroup {K O C P S : Type} (h : Host K O C P S) : TabGroup S :=
  { KeyMap := DefaultKeyMap
    items := []
    currItemIndex := 0
    width := 0
    height := 0
    focused := false
    styles := DefaultStyles h }

/-- The constructor of §4.1 in the words of the specification: the default group, to which
every option of the list is applied in order. -/
def NewSpec {K O C P S : Type} (h : Host K O C P S) (opts : List (TabOption S)) : TabGroup S :=
  opts.foldl (fun tg opt => opt tg) (defaultGroup h)

/-- An option that replaces the `TabNext` binding of the key map. -/
def withTabNext {S : Type} (b : Binding) : TabOption S :=
  fun tg => { tg with KeyMap := { tg.KeyMap with TabNext := b } }

/-- The initialisation of §4.5 in the words of the specification: every item of the list, in
item order, is initialised once; the result is the store afterwards and the list of the
returned commands in item order. -/
def initAll {K O C P S : Type} (h : Host K O C P S) : List Ptr → Heap P → Heap P × List (Cmd C)
  | [], heap => (heap, [])
  | item :: rest, heap =>
    let r := h.itemInit (heap item).Groupable
    let after := initAll h rest (Function.update heap item { heap item with Groupable := r.1 })
    (after.1, r.2 :: after.2)

/-- The two title styles of the navbar. -/
inductive TitleStyle where
  | selected
  | unselected
  deriving DecidableEq, Repr

/-- The title style of §4.5 for the item at position `i`: selected at the current index,
unselected everywhere else. -/
def titleStyle {S : Type} (tg : TabGroup S) (i : Nat) : TitleStyle :=
  if tg.currItemIndex = (i : Int) then TitleStyle.selected else TitleStyle.unselected

/-- A title rendered with one of the two title styles of the group. -/
def renderTitle {K O C P S : Type} (h : Host K O C P S) (tg : TabGroup S) (st : TitleStyle)
    (title : String) : String :=
  match st with
  | TitleStyle.selected => h.render tg.styles.NavbarTitleSelected title
  | TitleStyle.unselected => h.render tg.styles.NavbarTitleUnselected title

/-- The styled titles of the items of a list whose first item stands at position `i`. -/
def styledTitlesFrom {K O C P S : Type} (h : Host K O C P S) (tg : TabGroup S) (heap : Heap P) :
    Nat → List Ptr → List String
  | _, [] => []
  | i, item :: rest =>
    renderTitle h tg (titleStyle tg i) (heap item).Title :: styledTitlesFrom h tg heap (i + 1) rest

/-- The styled titles of the group, in item order. -/
def styledTitles {K O C P S : Type} (h : Host K O C P S) (tg : TabGroup S) (heap : Heap P) :
    List String :=
  styledTitlesFrom h tg heap 0 tg.items

/-- The strings of a list joined with `sep` between consecutive ones. -/
def joinWith (sep : String) : List String → String
  | [] => ""
  | [a] => a
  | a :: b :: rest => a ++ (sep ++ joinWith sep (b :: rest))

/-- The text that `View` passes to the navbar container style. -/
def navbarText {K O C P S : Type} (h : Host K O C P S) (tg : TabGroup S) (heap : Heap P) :
    String :=
  TrimRight (ViewLoop h tg heap 0 (Items tg) "") "• "

/-- The example host with styles that render every text unchanged. -/
def plainHost : Host String Nat (List Nat) DemoPanel DemoStyle :=
  { demoHost with render := fun _ t => t }

/-- A store in which the item at the pointer 2 has a title that ends in a space. -/
def spacedHeap : Heap DemoPanel :=
  fun p => { demoHeap p with Title := if p = 2 then "B " else demoTitle p }

/-- The group `New()` with the items at the pointers 1 and 2 added in that order. -/
def pairGroup : TabGroup DemoStyle :=
  (AddItem 0 (AddItem 0 (New plainHost []) 1).1 2).1

/-- The call `SetSize(w1, h1)` followed by the call `SetSize(w2, h2)`. -/
def SetSizeTwice {K O C P S : Type} (h : Host K O C P S) (tg : TabGroup S) (heap : Heap P)
    (w1 h1 w2 h2 : Int) : TabGroup S × Heap P :=
  SetSize h (SetSize h tg heap w1 h1).1 (SetSize h tg heap w1 h1).2 w2 h2

/-- The strings of a list, each followed by `sep`. -/
def withSep (sep : String) : List String → String
  | [] => ""
  | a :: rest => (a ++ sep) ++ withSep sep rest

/-! ## Lemmas on the machine arithmetic -/

theorem wrapInt_of_fits (x : Int) (h1 : -9223372036854775808 ≤ x) (h2 : x ≤ maxInt) :
    wrapInt x = x := by
  unfold maxInt at h2
  unfold wrapInt
  omega

theorem goRem_of_nonneg (a n : Int) (ha : 0 ≤ a) (hn : 0 < n) :
    goRem a n = Except.ok (a % n) := by
  unfold goRem
  rw [if_neg (by omega), Int.tmod_eq_emod ha (by omega)]

theorem goRem_neg_one (n : Int) (hn : 1 < n) : goRem (-1) n = Except.ok (-1) := by
  unfold goRem
  rw [if_neg (by omega)]
  obtain ⟨k, rfl⟩ := Int.eq_ofNat_of_zero_le (by omega : 0 ≤ n)
  have h : Int.tmod (-1) (k : Int) = -((1 % k : Nat) : Int) := rfl
  have hk : 1 % k = 1 := Nat.mod_eq_of_lt (by omega)
  rw [h, hk]
  rfl

section Navigation

variable {S : Type}

/-- On a non-empty group with the index in range `nextTab` returns, and the new index is
`(i + 1) mod N`. -/
theorem nextTab_ok (tg : TabGroup S) (hfit : LenFits tg) (hr : InRange tg) :
    nextTab tg = Except.ok
      { tg with currItemIndex := (tg.currItemIndex + 1) % (tg.items.length : Int) } := by
  obtain ⟨h0, h1⟩ := hr
  unfold LenFits at hfit
  have hw : wrapInt (tg.currItemIndex + 1) = tg.currItemIndex + 1 :=
    wrapInt_of_fits _ (by omega) (by omega)
  unfold nextTab
  rw [hw, goRem_of_nonneg _ _ (by omega) (by omega)]
  rfl

/-- On a non-empty group with the index in range `prevTab` returns, and the new index is
`(i - 1 + N) mod N`. -/
theorem prevTab_ok (tg : TabGroup S) (hfit : LenFits tg) (hr : InRange tg) :
    prevTab tg = Except.ok
      { tg with currItemIndex :=
          (tg.currItemIndex - 1 + (tg.items.length : Int)) % (tg.items.length : Int) } := by
  obtain ⟨h0, h1⟩ := hr
  unfold LenFits at hfit
  have hmax : maxInt = 9223372036854775807 := rfl
  have hw : wrapInt (tg.currItemIndex - 1) = tg.currItemIndex - 1 :=
    wrapInt_of_fits _ (by omega) (by omega)
  have hw2 : wrapInt ((tg.items.length : Int) - 1) = (tg.items.length : Int) - 1 :=
    wrapInt_of_fits _ (by omega) (by omega)
  unfold prevTab
  rw [hw]
  by_cases hi : tg.currItemIndex = 0
  · rw [hi]
    by_cases hn : (tg.items.length : Int) = 1
    · rw [hn]
      rfl
    · have h2 : (1 : Int) < (tg.items.length : Int) := by omega
      have hg : goRem (0 - 1) (tg.items.length : Int) = Except.ok (-1) := goRem_neg_one _ h2
      rw [hg]
      have he : (0 - 1 + (tg.items.length : Int)) % (tg.items.length : Int)
          = (tg.items.length : Int) - 1 := by
        rw [Int.emod_eq_of_lt (by omega) (by omega)]; omega
      rw [he]
      simp [bind, Except.bind, pure, Except.pure, hw2]
  · have hpos : 0 ≤ tg.currItemIndex - 1 := by omega
    rw [goRem_of_nonneg _ _ hpos (by omega)]
    have he : (tg.currItemIndex - 1 + (tg.items.length : Int)) % (tg.items.length : Int)
        = tg.currItemIndex - 1 := by
      rw [Int.add_emod_self, Int.emod_eq_of_lt hpos (by omega)]
    have he2 : (tg.currItemIndex - 1) % (tg.items.length : Int) = tg.currItemIndex - 1 :=
      Int.emod_eq_of_lt hpos (by omega)
    rw [he, he2]
    have hnn : ¬ (tg.currItemIndex - 1 < 0) := by omega
    simp [bind, Except.bind, pure, Except.pure, hnn]

end Navigation

section Invariant

variable {S : Type}

theorem inRange_emod (i n : Int) (hn : 0 < n) : 0 ≤ i % n ∧ i % n < n :=
  ⟨Int.emod_nonneg _ (by omega), Int.emod_lt_of_pos _ hn⟩

/-- The navigation step `nextTab` keeps the index in range. -/
theorem nextTab_inRange (tg : TabGroup S) (hfit : LenFits tg) (hr : InRange tg) :
    ∃ tg1, nextTab tg = Except.ok tg1 ∧ InRange tg1 ∧ tg1.items = tg.items :=
  ⟨_, nextTab_ok tg hfit hr, inRange_emod _ _ (by have := hr.1; have := hr.2; omega), rfl⟩

/-- The navigation step `prevTab` keeps the index in range. -/
theorem prevTab_inRange (tg : TabGroup S) (hfit : LenFits tg) (hr : InRange tg) :
    ∃ tg1, prevTab tg = Except.ok tg1 ∧ InRange tg1 ∧ tg1.items = tg.items :=
  ⟨_, prevTab_ok tg hfit hr, inRange_emod _ _ (by have := hr.1; have := hr.2; omega), rfl⟩

/-- Appending an item keeps the index in range. -/
theorem AddItem_inRange (self : Ptr) (tg : TabGroup S) (item : Ptr) (hr : InRange tg) :
    InRange (AddItem self tg item).1 := by
  obtain ⟨h0, h1⟩ := hr
  refine ⟨h0, ?_⟩
  show tg.currItemIndex < ((tg.items ++ [item]).length : Int)
  rw [List.length_append, List.length_singleton]
  push_cast
  omega

/-- Every run of operations from a state that satisfies the invariant returns, and ends in a
state that satisfies it, as long as the item slice stays within the length of a Go slice. -/
theorem run_inRange (self : Ptr) (ops : List Op) :
    ∀ tg : TabGroup S, InRange tg →
      (tg.items.length : Int) + (ops.length : Int) ≤ maxInt →
      ∃ tg1, run self ops tg = Except.ok tg1 ∧ InRange tg1 := by
  induction ops with
  | nil => intro tg hr _; exact ⟨tg, rfl, hr⟩
  | cons op ops ih =>
    intro tg hr hb
    rw [List.length_cons] at hb
    push_cast at hb
    have hfit : LenFits tg := by unfold LenFits; omega
    cases op with
    | next =>
      obtain ⟨tg1, e1, hr1, hi1⟩ := nextTab_inRange tg hfit hr
      obtain ⟨tg2, e2, hr2⟩ := ih tg1 hr1 (by rw [hi1]; omega)
      exact ⟨tg2, by simp [run, step, e1, e2, bind, Except.bind], hr2⟩
    | prev =>
      obtain ⟨tg1, e1, hr1, hi1⟩ := prevTab_inRange tg hfit hr
      obtain ⟨tg2, e2, hr2⟩ := ih tg1 hr1 (by rw [hi1]; omega)
      exact ⟨tg2, by simp [run, step, e1, e2, bind, Except.bind], hr2⟩
    | add item =>
      have hlen : ((AddItem self tg item).1.items.length : Int)
          = (tg.items.length : Int) + 1 := by
        show (((tg.items ++ [item]).length : Nat) : Int) = _
        rw [List.length_append, List.length_singleton]
        push_cast
        rfl
      obtain ⟨tg2, e2, hr2⟩ :=
        ih (AddItem self tg item).1 (AddItem_inRange self tg item hr) (by rw [hlen]; omega)
      exact ⟨tg2, by simp [run, step, e2, bind, Except.bind, pure, Except.pure], hr2⟩

/-- C1: on a non-empty group whose index is in range, `nextTab` and `prevTab` return and
`AddItem` yields a state whose index is again in range; the group `New()` with one item added
has its index in range, and so has every state reached from it by any sequence of
next/prev/AddItem operations. -/
theorem index_in_range_invariant {K O C P : Type} :
    (∀ (self : Ptr) (tg : TabGroup S), 0 < tg.items.length → LenFits tg → InRange tg →
      (∃ tg1, nextTab tg = Except.ok tg1 ∧ InRange tg1) ∧
      (∃ tg1, prevTab tg = Except.ok tg1 ∧ InRange tg1) ∧
      (∀ item, InRange (AddItem self tg item).1)) ∧
    (∀ (h : Host K O C P S) (self : Ptr) (opts : List (TabOption S)) (item : Ptr)
        (ops : List Op), (ops.length : Int) < maxInt →
      InRange (AddItem self (New h opts) item).1 ∧
      ∃ tg1, run self ops (AddItem self (New h opts) item).1 = Except.ok tg1 ∧
        InRange tg1) := by
  refine ⟨?_, ?_⟩
  · intro self tg _ hfit hr
    obtain ⟨t1, e1, r1, _⟩ := nextTab_inRange tg hfit hr
    obtain ⟨t2, e2, r2, _⟩ := prevTab_inRange tg hfit hr
    exact ⟨⟨t1, e1, r1⟩, ⟨t2, e2, r2⟩, fun item => AddItem_inRange self tg item hr⟩
  · intro h self opts item ops hb
    have h0 : InRange (AddItem self (New h opts) item).1 := by
      show (0 : Int) ≤ 0 ∧ (0 : Int) < 1
      exact ⟨by decide, by decide⟩
    refine ⟨h0, run_inRange self ops _ h0 ?_⟩
    have : ((AddItem self (New h opts) item).1.items.length : Int) = 1 := rfl
    rw [this]
    omega

/-- The statement of C1 at the group with the items 1, 2, 3 and at the run
next, prev, add, next from `New()` with one item. -/
theorem index_in_range_invariant_witness :
    ((∃ tg1, nextTab demoGroup = Except.ok tg1 ∧ InRange tg1) ∧
      (∃ tg1, prevTab demoGroup = Except.ok tg1 ∧ InRange tg1) ∧
      (∀ item, InRange (AddItem 0 demoGroup item).1)) ∧
    (InRange (AddItem 0 (New demoHost []) 7).1 ∧
      ∃ tg1, run 0 [Op.next, Op.prev, Op.add 8, Op.next]
        (AddItem 0 (New demoHost []) 7).1 = Except.ok tg1 ∧ InRange tg1) :=
  ⟨(index_in_range_invariant (K := String) (O := Nat) (C := List Nat) (P := DemoPanel)).1
      0 demoGroup (by decide) (by decide) (by decide),
    (index_in_range_invariant).2 demoHost 0 [] 7 [Op.next, Op.prev, Op.add 8, Op.next]
      (by decide)⟩

end Invariant

section Cycle

variable {S : Type}

/-- After `k` calls of `nextTab` the index has advanced by `k` modulo the number of items. -/
theorem nextTabTimes_ok (k : Nat) :
    ∀ tg : TabGroup S, LenFits tg → InRange tg →
      nextTabTimes k tg = Except.ok
        { tg with currItemIndex :=
            (tg.currItemIndex + (k : Int)) % (tg.items.length : Int) } := by
  induction k with
  | zero =>
    intro tg _ hr
    have he : (tg.currItemIndex + ((0 : Nat) : Int)) % (tg.items.length : Int)
        = tg.currItemIndex := by
      rw [Int.ofNat_zero, Int.add_zero, Int.emod_eq_of_lt hr.1 hr.2]
    rw [he]
    rfl
  | succ k ih =>
    intro tg hfit hr
    have hn : (0 : Int) < (tg.items.length : Int) := by
      have := hr.1
      have := hr.2
      omega
    have e1 := nextTab_ok tg hfit hr
    have e2 := ih { tg with currItemIndex := (tg.currItemIndex + 1) % (tg.items.length : Int) }
      hfit (inRange_emod _ _ hn)
    have he : ((tg.currItemIndex + 1) % (tg.items.length : Int) + (k : Int))
          % (tg.items.length : Int)
        = (tg.currItemIndex + ((k + 1 : Nat) : Int)) % (tg.items.length : Int) := by
      rw [Int.emod_add_emod]
      push_cast
      congr 1
      omega
    show (nextTab tg >>= nextTabTimes k) = _
    rw [e1]
    show nextTabTimes k _ = _
    rw [e2]
    show Except.ok { tg with currItemIndex := _ } = Except.ok { tg with currItemIndex := _ }
    rw [he]

/-- C2: on a non-empty group of `N` items whose index `i` is in range, `nextTab` called `N`
times in a row returns and leaves the group as it was; the index is `i` again. -/
theorem nextTab_cycle (tg : TabGroup S) (hN : 0 < tg.items.length) (hfit : LenFits tg)
    (hr : InRange tg) :
    nextTabTimes tg.items.length tg = Except.ok tg ∧
      ∃ tg1, nextTabTimes tg.items.length tg = Except.ok tg1 ∧
        tg1.currItemIndex = tg.currItemIndex := by
  have hn : (0 : Int) < (tg.items.length : Int) := by omega
  have e := nextTabTimes_ok tg.items.length tg hfit hr
  have he : (tg.currItemIndex + (tg.items.length : Int)) % (tg.items.length : Int)
      = tg.currItemIndex := by
    rw [Int.add_emod_self, Int.emod_eq_of_lt hr.1 hr.2]
  rw [he] at e
  exact ⟨e, tg, e, rfl⟩

/-- The statement of C2 at the group with three items, from the index 0. -/
theorem nextTab_cycle_witness :
    nextTabTimes 3 demoGroup = Except.ok demoGroup ∧
      ∃ tg1, nextTabTimes 3 demoGroup = Except.ok tg1 ∧
        tg1.currItemIndex = demoGroup.currItemIndex :=
  nextTab_cycle demoGroup (by decide) (by decide) (by decide)

/-- C3: on a non-empty group whose index `i` is in range, `prevTab` after `nextTab` and
`nextTab` after `prevTab` both return and leave the group as it was; the index is `i`
again.  The cases `N = 1`, `i = 0` and `i = N - 1` are covered. -/
theorem next_prev_inverse (tg : TabGroup S) (hN : 0 < tg.items.length) (hfit : LenFits tg)
    (hr : InRange tg) :
    (nextTab tg >>= prevTab) = Except.ok tg ∧ (prevTab tg >>= nextTab) = Except.ok tg ∧
      (∃ tg1, (nextTab tg >>= prevTab) = Except.ok tg1 ∧
        tg1.currItemIndex = tg.currItemIndex) ∧
      (∃ tg1, (prevTab tg >>= nextTab) = Except.ok tg1 ∧
        tg1.currItemIndex = tg.currItemIndex) := by
  have hn : (0 : Int) < (tg.items.length : Int) := by omega
  obtain ⟨h0, h1⟩ := hr
  have a : (nextTab tg >>= prevTab) = Except.ok tg := by
    rw [nextTab_ok tg hfit ⟨h0, h1⟩]
    show prevTab _ = _
    rw [prevTab_ok
      { tg with currItemIndex := (tg.currItemIndex + 1) % (tg.items.length : Int) }
      hfit (inRange_emod _ _ hn)]
    show Except.ok { tg with currItemIndex := _ } = Except.ok tg
    have he : ((tg.currItemIndex + 1) % (tg.items.length : Int) - 1 + (tg.items.length : Int))
        % (tg.items.length : Int) = tg.currItemIndex := by
      by_cases hl : tg.currItemIndex + 1 = (tg.items.length : Int)
      · rw [hl, Int.emod_self, Int.emod_eq_of_lt (by omega) (by omega)]
        omega
      · rw [Int.emod_eq_of_lt (a := tg.currItemIndex + 1) (by omega) (by omega),
          Int.add_emod_self, Int.emod_eq_of_lt (by omega) (by omega)]
        omega
    rw [he]
  have b : (prevTab tg >>= nextTab) = Except.ok tg := by
    rw [prevTab_ok tg hfit ⟨h0, h1⟩]
    show nextTab _ = _
    rw [nextTab_ok
      { tg with currItemIndex :=
          (tg.currItemIndex - 1 + (tg.items.length : Int)) % (tg.items.length : Int) }
      hfit (inRange_emod _ _ hn)]
    show Except.ok { tg with currItemIndex := _ } = Except.ok tg
    have he : ((tg.currItemIndex - 1 + (tg.items.length : Int)) % (tg.items.length : Int) + 1)
        % (tg.items.length : Int) = tg.currItemIndex := by
      by_cases hl : tg.currItemIndex = 0
      · rw [hl, Int.emod_eq_of_lt (a := 0 - 1 + (tg.items.length : Int)) (by omega) (by omega)]
        have : (0 : Int) - 1 + (tg.items.length : Int) + 1 = (tg.items.length : Int) := by omega
        rw [this, Int.emod_self]
      · rw [Int.add_emod_self, Int.emod_eq_of_lt (a := tg.currItemIndex - 1) (by omega) (by omega),
          Int.emod_eq_of_lt (by omega) (by omega)]
        omega
    rw [he]
  exact ⟨a, b, ⟨tg, a, rfl⟩, ⟨tg, b, rfl⟩⟩

/-- The statement of C3 at a group with a single item (`N = 1`, `i = 0 = N - 1`). -/
theorem next_prev_inverse_witness :
    (nextTab (AddItem 0 (New demoHost []) 1).1 >>= prevTab)
        = Except.ok (AddItem 0 (New demoHost []) 1).1 ∧
      (prevTab (AddItem 0 (New demoHost []) 1).1 >>= nextTab)
        = Except.ok (AddItem 0 (New demoHost []) 1).1 ∧
      (∃ tg1, (nextTab (AddItem 0 (New demoHost []) 1).1 >>= prevTab) = Except.ok tg1 ∧
        tg1.currItemIndex = (AddItem 0 (New demoHost []) 1).1.currItemIndex) ∧
      (∃ tg1, (prevTab (AddItem 0 (New demoHost []) 1).1 >>= nextTab) = Except.ok tg1 ∧
        tg1.currItemIndex = (AddItem 0 (New demoHost []) 1).1.currItemIndex) :=
  next_prev_inverse (AddItem 0 (New demoHost []) 1).1 (by decide) (by decide) (by decide)

end Cycle

section Formulas

variable {S : Type}

/-- C5: on a non-empty group of `N` items whose index `i` is in range, `prevTab` returns and
only changes the index, which becomes `(i - 1 + N) mod N`; it is never negative, and from
`i = 0` it is `N - 1`, although the remainder the code takes of `i - 1` is `-1` there
(for `N > 1`). -/
theorem prevTab_formula (tg : TabGroup S) (hN : 0 < tg.items.length) (hfit : LenFits tg)
    (hr : InRange tg) :
    ∃ tg1, prevTab tg = Except.ok tg1 ∧
      tg1.currItemIndex
        = (tg.currItemIndex - 1 + (tg.items.length : Int)) % (tg.items.length : Int) ∧
      0 ≤ tg1.currItemIndex ∧
      (tg.currItemIndex = 0 → tg1.currItemIndex = (tg.items.length : Int) - 1) ∧
      (tg.currItemIndex = 0 → 1 < tg.items.length →
        goRem (wrapInt (tg.currItemIndex - 1)) (tg.items.length : Int) = Except.ok (-1)) ∧
      tg1 = { tg with currItemIndex := tg1.currItemIndex } := by
  have hn : (0 : Int) < (tg.items.length : Int) := by omega
  refine ⟨_, prevTab_ok tg hfit hr, rfl, (inRange_emod _ _ hn).1, ?_, ?_, rfl⟩
  · intro h0
    show (tg.currItemIndex - 1 + (tg.items.length : Int)) % (tg.items.length : Int) = _
    rw [h0, Int.emod_eq_of_lt (by omega) (by omega)]
    omega
  · intro h0 h1
    rw [h0]
    exact goRem_neg_one _ (by omega)

/-- The statement of C5 at the group with three items, from the index 0. -/
theorem prevTab_formula_witness :
    ∃ tg1, prevTab demoGroup = Except.ok tg1 ∧
      tg1.currItemIndex
        = (demoGroup.currItemIndex - 1 + (demoGroup.items.length : Int))
            % (demoGroup.items.length : Int) ∧
      0 ≤ tg1.currItemIndex ∧
      (demoGroup.currItemIndex = 0 →
        tg1.currItemIndex = (demoGroup.items.length : Int) - 1) ∧
      (demoGroup.currItemIndex = 0 → 1 < demoGroup.items.length →
        goRem (wrapInt (demoGroup.currItemIndex - 1)) (demoGroup.items.length : Int)
          = Except.ok (-1)) ∧
      tg1 = { demoGroup with currItemIndex := tg1.currItemIndex } :=
  prevTab_formula demoGroup (by decide) (by decide) (by decide)

/-- C6: on a non-empty group of `N` items whose index `i` is in range, `nextTab` returns and
only changes the index, which becomes `(i + 1) mod N`; from `i = N - 1` it is `0`. -/
theorem nextTab_formula (tg : TabGroup S) (_hN : 0 < tg.items.length) (hfit : LenFits tg)
    (hr : InRange tg) :
    ∃ tg1, nextTab tg = Except.ok tg1 ∧
      tg1.currItemIndex = (tg.currItemIndex + 1) % (tg.items.length : Int) ∧
      (tg.currItemIndex = (tg.items.length : Int) - 1 → tg1.currItemIndex = 0) ∧
      tg1 = { tg with currItemIndex := tg1.currItemIndex } := by
  refine ⟨_, nextTab_ok tg hfit hr, rfl, ?_, rfl⟩
  intro h0
  show (tg.currItemIndex + 1) % (tg.items.length : Int) = 0
  have : tg.currItemIndex + 1 = (tg.items.length : Int) := by omega
  rw [this, Int.emod_self]

/-- The statement of C6 at the group with three items, from the index 0. -/
theorem nextTab_formula_witness :
    ∃ tg1, nextTab demoGroup = Except.ok tg1 ∧
      tg1.currItemIndex = (demoGroup.currItemIndex + 1) % (demoGroup.items.length : Int) ∧
      (demoGroup.currItemIndex = (demoGroup.items.length : Int) - 1 →
        tg1.currItemIndex = 0) ∧
      tg1 = { demoGroup with currItemIndex := tg1.currItemIndex } :=
  nextTab_formula demoGroup (by decide) (by decide) (by decide)

end Formulas

section EmptyGroup

variable {K O C P S : Type}

/-- On a group without items `nextTab` divides by zero. -/
theorem nextTab_empty (tg : TabGroup S) (he : tg.items = []) :
    nextTab tg = Except.error Panic.integerDivideByZero := by
  unfold nextTab goRem
  rw [he]
  rfl

/-- On a group without items `prevTab` divides by zero. -/
theorem prevTab_empty (tg : TabGroup S) (he : tg.items = []) :
    prevTab tg = Except.error Panic.integerDivideByZero := by
  unfold prevTab goRem
  rw [he]
  rfl

/-- A key message that matches the `TabNext` binding is routed to `nextTab`. -/
theorem Update_next (h : Host K O C P S) (self : Ptr) (tg : TabGroup S) (heap : Heap P)
    (k : K) (hm : h.keyMatches k tg.KeyMap.TabNext = true) :
    Update h self tg heap (Msg.key k)
      = nextTab tg >>= fun tg1 => pure (afterRouting h self heap (Msg.key k) tg1) := by
  unfold Update
  simp only [hm, if_true]
  rfl

/-- A key message that matches the `TabPrev` binding and not the `TabNext` binding is routed
to `prevTab`. -/
theorem Update_prev (h : Host K O C P S) (self : Ptr) (tg : TabGroup S) (heap : Heap P)
    (k : K) (hn : h.keyMatches k tg.KeyMap.TabNext = false)
    (hm : h.keyMatches k tg.KeyMap.TabPrev = true) :
    Update h self tg heap (Msg.key k)
      = prevTab tg >>= fun tg1 => pure (afterRouting h self heap (Msg.key k) tg1) := by
  unfold Update
  simp only [hn, hm, if_true, Bool.false_eq_true, if_false]
  rfl

/-- A key message that matches neither binding leaves the group to the broadcast. -/
theorem Update_key_pass (h : Host K O C P S) (self : Ptr) (tg : TabGroup S) (heap : Heap P)
    (k : K) (hn : h.keyMatches k tg.KeyMap.TabNext = false)
    (hm : h.keyMatches k tg.KeyMap.TabPrev = false) :
    Update h self tg heap (Msg.key k) = Except.ok (afterRouting h self heap (Msg.key k) tg) := by
  unfold Update
  simp only [hn, hm, Bool.false_eq_true, if_false]
  rfl

/-- A message that is not a key message leaves the group to the broadcast. -/
theorem Update_other (h : Host K O C P S) (self : Ptr) (tg : TabGroup S) (heap : Heap P)
    (o : O) :
    Update h self tg heap (Msg.other o)
      = Except.ok (afterRouting h self heap (Msg.other o) tg) :=
  rfl

/-- On a group without items `Update` panics on every key message that matches one of the
two navigation bindings: nothing is forwarded and nothing is returned. -/
theorem Update_empty_panics (h : Host K O C P S) (self : Ptr) (tg : TabGroup S)
    (heap : Heap P) (k : K) (he : tg.items = [])
    (hm : h.keyMatches k tg.KeyMap.TabNext = true ∨ h.keyMatches k tg.KeyMap.TabPrev = true) :
    Update h self tg heap (Msg.key k) = Except.error Panic.integerDivideByZero := by
  by_cases hn : h.keyMatches k tg.KeyMap.TabNext = true
  · rw [Update_next h self tg heap k hn, nextTab_empty tg he]
    rfl
  · have hn2 : h.keyMatches k tg.KeyMap.TabNext = false := by simpa using hn
    have hp : h.keyMatches k tg.KeyMap.TabPrev = true := by
      rcases hm with hm | hm
      · exact absurd hm hn
      · exact hm
    rw [Update_prev h self tg heap k hn2 hp, prevTab_empty tg he]
    rfl

/-- C4 (the code at the failing input): on the group `New()`, which has no items, `nextTab`
and `prevTab` panic with an integer division by zero, and so does `Update` on the key
messages of the default `TabNext` and `TabPrev` bindings; the navigation is not a no-op. -/
theorem empty_navigation_panics :
    (New demoHost []).items = [] ∧
    nextTab (New demoHost []) = Except.error Panic.integerDivideByZero ∧
    prevTab (New demoHost []) = Except.error Panic.integerDivideByZero ∧
    Update demoHost 0 (New demoHost []) demoHeap (Msg.key "alt+right")
      = Except.error Panic.integerDivideByZero ∧
    Update demoHost 0 (New demoHost []) demoHeap (Msg.key "alt+left")
      = Except.error Panic.integerDivideByZero :=
  ⟨rfl, rfl, rfl, rfl, rfl⟩

end EmptyGroup

section Routing

variable {K O C P S : Type}

/-- C7: on a non-empty group whose index is in range, `Update` on a key message that
matches the `TabNext` binding returns and leaves the group exactly as one `nextTab` does, and
on a key message that matches `TabPrev` and not `TabNext` exactly as one `prevTab` does.
Scenario: `New()` has the index 0, and so has the group with the items A, B, C added; three
next-key updates give the indices 1, 2, 0 and a prev-key update after them gives 2. -/
theorem key_routing (h : Host K O C P S) (self : Ptr) (tg : TabGroup S) (heap : Heap P)
    (k : K) (hN : 0 < tg.items.length) (hfit : LenFits tg) (hr : InRange tg) :
    (h.keyMatches k tg.KeyMap.TabNext = true →
      ∃ tgn r, nextTab tg = Except.ok tgn ∧ Update h self tg heap (Msg.key k) = Except.ok r ∧
        r.tg = tgn ∧ r.tg.currItemIndex = tgn.currItemIndex) ∧
    (h.keyMatches k tg.KeyMap.TabNext = false → h.keyMatches k tg.KeyMap.TabPrev = true →
      ∃ tgp r, prevTab tg = Except.ok tgp ∧ Update h self tg heap (Msg.key k) = Except.ok r ∧
        r.tg = tgp ∧ r.tg.currItemIndex = tgp.currItemIndex) ∧
    ((New demoHost []).currItemIndex = 0 ∧
      demoGroup.items = [1, 2, 3] ∧ (demoGroup.items.map fun p => (demoHeap p).Title)
        = ["A", "B", "C"] ∧
      demoGroup.currItemIndex = 0 ∧
      (UpdateAll demoHost 0 [Msg.key "alt+right"] demoGroup demoHeap).map
        (fun r => r.1.currItemIndex) = Except.ok 1 ∧
      (UpdateAll demoHost 0 [Msg.key "alt+right", Msg.key "alt+right"] demoGroup demoHeap).map
        (fun r => r.1.currItemIndex) = Except.ok 2 ∧
      (UpdateAll demoHost 0 [Msg.key "alt+right", Msg.key "alt+right", Msg.key "alt+right"]
        demoGroup demoHeap).map (fun r => r.1.currItemIndex) = Except.ok 0 ∧
      (UpdateAll demoHost 0 [Msg.key "alt+right", Msg.key "alt+right", Msg.key "alt+right",
        Msg.key "alt+left"] demoGroup demoHeap).map (fun r => r.1.currItemIndex)
        = Except.ok 2) := by
  have _hn : (0 : Int) < (tg.items.length : Int) := by omega
  refine ⟨?_, ?_, ⟨rfl, rfl, rfl, rfl, rfl, rfl, rfl, rfl⟩⟩
  · intro hm
    refine ⟨_, afterRouting h self heap (Msg.key k) _, nextTab_ok tg hfit hr, ?_, rfl, rfl⟩
    rw [Update_next h self tg heap k hm, nextTab_ok tg hfit hr]
    rfl
  · intro hn hm
    refine ⟨_, afterRouting h self heap (Msg.key k) _, prevTab_ok tg hfit hr, ?_, rfl, rfl⟩
    rw [Update_prev h self tg heap k hn hm, prevTab_ok tg hfit hr]
    rfl

/-- The statement of C7 at the group with the items A, B, C: the default next key from the
index 0, and the default prev key, which does not match `TabNext`. -/
theorem key_routing_witness :
    (∃ tgn r, nextTab demoGroup = Except.ok tgn ∧
      Update demoHost 0 demoGroup demoHeap (Msg.key "alt+right") = Except.ok r ∧
      r.tg = tgn ∧ r.tg.currItemIndex = tgn.currItemIndex) ∧
    (∃ tgp r, prevTab demoGroup = Except.ok tgp ∧
      Update demoHost 0 demoGroup demoHeap (Msg.key "alt+left") = Except.ok r ∧
      r.tg = tgp ∧ r.tg.currItemIndex = tgp.currItemIndex) :=
  ⟨(key_routing demoHost 0 demoGroup demoHeap "alt+right"
      (by decide) (by decide) (by decide)).1 rfl,
    (key_routing demoHost 0 demoGroup demoHeap "alt+left"
      (by decide) (by decide) (by decide)).2.1 rfl rfl⟩

/-! ### The broadcast to the items -/

/-- The loop of `updateTabItems` is the broadcast of the specification: the commands it
appends are the commands of the items in item order. -/
theorem updateTabItemsLoop_eq (h : Host K O C P S) (msg : Msg K O) (items : List Ptr) :
    ∀ (heap : Heap P) (cmds : List (Cmd C)),
      updateTabItemsLoop h msg items heap cmds
        = ((forwardAll h msg items heap).1, cmds ++ (forwardAll h msg items heap).2) := by
  induction items with
  | nil => intro heap cmds; simp [updateTabItemsLoop, forwardAll]
  | cons item rest ih =>
    intro heap cmds
    simp only [updateTabItemsLoop, forwardAll, ih, List.append_assoc, List.singleton_append]

theorem updateTabItems_eq (h : Host K O C P S) (tg : TabGroup S) (heap : Heap P)
    (msg : Msg K O) :
    updateTabItems h tg heap msg = forwardAll h msg tg.items heap := by
  unfold updateTabItems
  rw [updateTabItemsLoop_eq]
  rfl

/-- The broadcast returns one command for each item. -/
theorem forwardAll_length (h : Host K O C P S) (msg : Msg K O) (items : List Ptr) :
    ∀ heap : Heap P, (forwardAll h msg items heap).2.length = items.length := by
  induction items with
  | nil => intro heap; rfl
  | cons item rest ih => intro heap; simp [forwardAll, ih]

/-- The broadcast leaves the items outside the list alone. -/
theorem forwardAll_not_mem (h : Host K O C P S) (msg : Msg K O) (items : List Ptr) :
    ∀ (heap : Heap P) (p : Ptr), p ∉ items → (forwardAll h msg items heap).1 p = heap p := by
  induction items with
  | nil => intro heap p _; rfl
  | cons item rest ih =>
    intro heap p hp
    have h1 : p ≠ item := fun e => hp (e ▸ List.mem_cons_self _ _)
    have h2 : p ∉ rest := fun m => hp (List.mem_cons_of_mem _ m)
    simp only [forwardAll]
    rw [ih _ p h2, Function.update_noteq h1]

/-- When no item occurs twice in the list, the broadcast calls the `Update` of every item of
the list exactly once on the state the item had before, and the commands are those of the
items in item order. -/
theorem forwardAll_nodup (h : Host K O C P S) (msg : Msg K O) (items : List Ptr) :
    ∀ heap : Heap P, items.Nodup →
      (∀ p ∈ items, (forwardAll h msg items heap).1 p
        = { heap p with Groupable := (h.itemUpdate (heap p).Groupable msg).1 }) ∧
      (forwardAll h msg items heap).2
        = items.map fun p => (h.itemUpdate (heap p).Groupable msg).2 := by
  induction items with
  | nil => intro heap _; exact ⟨fun p hp => absurd hp (List.not_mem_nil p), rfl⟩
  | cons item rest ih =>
    intro heap hnd
    obtain ⟨hni, hnr⟩ := List.nodup_cons.mp hnd
    obtain ⟨ih1, ih2⟩ := ih
      (Function.update heap item
        { heap item with Groupable := (h.itemUpdate (heap item).Groupable msg).1 }) hnr
    constructor
    · intro p hp
      simp only [forwardAll]
      rcases List.mem_cons.mp hp with e | m
      · subst e
        rw [forwardAll_not_mem h msg rest _ p hni, Function.update_same]
      · have hne : p ≠ item := fun e => hni (e ▸ m)
        rw [ih1 p m, Function.update_noteq hne]
    · simp only [forwardAll, List.map_cons]
      rw [ih2]
      congr 1
      apply List.map_congr_left
      intro p m
      have hne : p ≠ item := fun e => hni (e ▸ m)
      rw [Function.update_noteq hne]

/-- A navigation step that returns leaves the item list alone. -/
theorem nextTab_items (tg tg1 : TabGroup S) (e : nextTab tg = Except.ok tg1) :
    tg1.items = tg.items := by
  unfold nextTab at e
  cases hg : goRem (wrapInt (tg.currItemIndex + 1)) (tg.items.length : Int) with
  | error x => rw [hg] at e; cases e
  | ok v => rw [hg] at e; cases e; rfl

theorem prevTab_items (tg tg1 : TabGroup S) (e : prevTab tg = Except.ok tg1) :
    tg1.items = tg.items := by
  unfold prevTab at e
  cases hg : goRem (wrapInt (tg.currItemIndex - 1)) (tg.items.length : Int) with
  | error x => rw [hg] at e; cases e
  | ok v =>
    rw [hg] at e
    by_cases hv : v < 0
    · simp [bind, Except.bind, pure, Except.pure, hv] at e
      rw [← e]
    · simp [bind, Except.bind, pure, Except.pure, hv] at e
      rw [← e]

/-- Whenever `Update` returns, it returns the receiver as the model, the item list is as it
was, every item has processed the message as the broadcast of the specification says, and the
returned command is the batch of the items' commands in item order, one for each item. -/
theorem Update_broadcast (h : Host K O C P S) (self : Ptr) (tg : TabGroup S) (heap : Heap P)
    (msg : Msg K O) (r : UpdateResult C P S) (e : Update h self tg heap msg = Except.ok r) :
    r.model = self ∧ r.tg.items = tg.items ∧
      r.heap = (forwardAll h msg tg.items heap).1 ∧
      r.cmd = h.batch (forwardAll h msg tg.items heap).2 ∧
      (forwardAll h msg tg.items heap).2.length = tg.items.length := by
  have key : ∀ tg1 : TabGroup S, tg1.items = tg.items →
      r = afterRouting h self heap msg tg1 →
      r.model = self ∧ r.tg.items = tg.items ∧
        r.heap = (forwardAll h msg tg.items heap).1 ∧
        r.cmd = h.batch (forwardAll h msg tg.items heap).2 ∧
        (forwardAll h msg tg.items heap).2.length = tg.items.length := by
    intro tg1 hi hr
    subst hr
    refine ⟨rfl, hi, ?_, ?_, forwardAll_length h msg tg.items heap⟩
    · show (updateTabItems h tg1 heap msg).1 = _
      rw [updateTabItems_eq, hi]
    · show h.batch ([] ++ (updateTabItems h tg1 heap msg).2) = _
      rw [updateTabItems_eq, hi, List.nil_append]
  cases msg with
  | other o =>
    rw [Update_other] at e
    cases e
    exact key tg rfl rfl
  | key k =>
    by_cases hn : h.keyMatches k tg.KeyMap.TabNext = true
    · rw [Update_next h self tg heap k hn] at e
      cases ht : nextTab tg with
      | error x => rw [ht] at e; cases e
      | ok tg1 =>
        rw [ht] at e
        cases e
        exact key tg1 (nextTab_items tg tg1 ht) rfl
    · have hn2 : h.keyMatches k tg.KeyMap.TabNext = false := by simpa using hn
      by_cases hp : h.keyMatches k tg.KeyMap.TabPrev = true
      · rw [Update_prev h self tg heap k hn2 hp] at e
        cases ht : prevTab tg with
        | error x => rw [ht] at e; cases e
        | ok tg1 =>
          rw [ht] at e
          cases e
          exact key tg1 (prevTab_items tg tg1 ht) rfl
      · have hp2 : h.keyMatches k tg.KeyMap.TabPrev = false := by simpa using hp
        rw [Update_key_pass h self tg heap k hn2 hp2] at e
        cases e
        exact key tg rfl rfl

/-- On a group with at least one item `Update` returns on every message. -/
theorem Update_returns (h : Host K O C P S) (self : Ptr) (tg : TabGroup S) (heap : Heap P)
    (msg : Msg K O) (hN : 0 < tg.items.length) :
    ∃ r, Update h self tg heap msg = Except.ok r := by
  have hne : ¬ ((tg.items.length : Int) = 0) := by omega
  cases msg with
  | other o => exact ⟨_, Update_other h self tg heap o⟩
  | key k =>
    by_cases hn : h.keyMatches k tg.KeyMap.TabNext = true
    · rw [Update_next h self tg heap k hn]
      unfold nextTab goRem
      rw [if_neg hne]
      exact ⟨_, rfl⟩
    · have hn2 : h.keyMatches k tg.KeyMap.TabNext = false := by simpa using hn
      by_cases hp : h.keyMatches k tg.KeyMap.TabPrev = true
      · rw [Update_prev h self tg heap k hn2 hp]
        unfold prevTab goRem
        rw [if_neg hne]
        by_cases hv : Int.tmod (wrapInt (tg.currItemIndex - 1)) (tg.items.length : Int) < 0
        · exact ⟨_, by simp [bind, Except.bind, pure, Except.pure, hv]; rfl⟩
        · exact ⟨_, by simp [bind, Except.bind, pure, Except.pure, hv]; rfl⟩
      · have hp2 : h.keyMatches k tg.KeyMap.TabPrev = false := by simpa using hp
        exact ⟨_, Update_key_pass h self tg heap k hn2 hp2⟩

/-- C8 (the code at the failing input): on the group `New()`, which has no items, `Update`
on the key message of the default `TabNext` binding panics with an integer division by zero;
it returns no model and no batch, so in particular not the receiver with the empty batch. -/
theorem broadcast_fails_on_empty_group :
    (New demoHost []).items = [] ∧
    demoHost.keyMatches "alt+right" (New demoHost []).KeyMap.TabNext = true ∧
    ¬ ∃ r, Update demoHost 0 (New demoHost []) demoHeap (Msg.key "alt+right") = Except.ok r ∧
      r.model = 0 ∧ r.cmd = demoHost.batch [] := by
  refine ⟨rfl, rfl, ?_⟩
  rintro ⟨r, e, _⟩
  have hp : Update demoHost 0 (New demoHost []) demoHeap (Msg.key "alt+right")
      = Except.error Panic.integerDivideByZero := rfl
  rw [hp] at e
  cases e

/-- C9: for every group, also one without items, and every message that is not a key
message or is a key message matching neither the `TabNext` nor the `TabPrev` binding,
`Update` returns and leaves the group as it was: the index, the item list, the width, the
height and the focus flag are unchanged. -/
theorem no_interception (h : Host K O C P S) (self : Ptr) (tg : TabGroup S) (heap : Heap P)
    (msg : Msg K O)
    (hmsg : ∀ k, msg = Msg.key k →
      h.keyMatches k tg.KeyMap.TabNext = false ∧ h.keyMatches k tg.KeyMap.TabPrev = false) :
    ∃ r, Update h self tg heap msg = Except.ok r ∧ r.tg = tg ∧
      r.tg.currItemIndex = tg.currItemIndex ∧ r.tg.items = tg.items ∧
      r.tg.width = tg.width ∧ r.tg.height = tg.height ∧ r.tg.focused = tg.focused := by
  cases msg with
  | other o =>
    exact ⟨_, Update_other h self tg heap o, rfl, rfl, rfl, rfl, rfl, rfl⟩
  | key k =>
    obtain ⟨hn, hp⟩ := hmsg k rfl
    exact ⟨_, Update_key_pass h self tg heap k hn hp, rfl, rfl, rfl, rfl, rfl, rfl⟩

/-- The statement of C9 at the empty group `New()` with a key message that matches neither
binding. -/
theorem no_interception_witness :
    ∃ r, Update demoHost 0 (New demoHost []) demoHeap (Msg.key "q") = Except.ok r ∧
      r.tg = New demoHost [] ∧
      r.tg.currItemIndex = (New demoHost []).currItemIndex ∧
      r.tg.items = (New demoHost []).items ∧
      r.tg.width = (New demoHost []).width ∧ r.tg.height = (New demoHost []).height ∧
      r.tg.focused = (New demoHost []).focused :=
  no_interception demoHost 0 (New demoHost []) demoHeap (Msg.key "q")
    (fun k e => by cases e; exact ⟨rfl, rfl⟩)

end Routing

section Registration

variable {S : Type}

/-- C10: `AddItem(x)` returns the receiver, and afterwards `Items()` is the previous
`Items()` followed by `x` (also when `x` is already in the list), one longer than before;
the index, the width, the height, the focus flag, the key map and the styles are
unchanged. -/
theorem AddItem_appends (self : Ptr) (tg : TabGroup S) (x : Ptr) :
    Items (AddItem self tg x).1 = Items tg ++ [x] ∧
      (Items (AddItem self tg x).1).length = (Items tg).length + 1 ∧
      (AddItem self tg x).1.currItemIndex = tg.currItemIndex ∧
      (AddItem self tg x).1.width = tg.width ∧
      (AddItem self tg x).1.height = tg.height ∧
      (AddItem self tg x).1.focused = tg.focused ∧
      (AddItem self tg x).1.KeyMap = tg.KeyMap ∧
      (AddItem self tg x).1.styles = tg.styles ∧
      (AddItem self tg x).2 = self := by
  refine ⟨rfl, ?_, rfl, rfl, rfl, rfl, rfl, rfl, rfl⟩
  show (tg.items ++ [x]).length = tg.items.length + 1
  rw [List.length_append, List.length_singleton]

end Registration

section FocusAndView

variable {K O C P S : Type}

/-- C19: `Focus()` sets the focus flag and returns no command, `Blur()` clears the flag; both
leave the items, the index, the width, the height, the key map and the styles as they were,
and calling either of them twice gives the state of calling it once. -/
theorem focus_blur_only_flag (tg : TabGroup S) :
    ((Focus tg : TabGroup S × Cmd C).1 = { tg with focused := true } ∧
      (Focus tg : TabGroup S × Cmd C).1.focused = true ∧
      (Focus tg : TabGroup S × Cmd C).2 = none) ∧
    (Blur tg = { tg with focused := false } ∧ (Blur tg).focused = false) ∧
    ((Focus tg : TabGroup S × Cmd C).1.items = tg.items ∧
      (Focus tg : TabGroup S × Cmd C).1.currItemIndex = tg.currItemIndex ∧
      (Focus tg : TabGroup S × Cmd C).1.width = tg.width ∧
      (Focus tg : TabGroup S × Cmd C).1.height = tg.height ∧
      (Focus tg : TabGroup S × Cmd C).1.KeyMap = tg.KeyMap ∧
      (Focus tg : TabGroup S × Cmd C).1.styles = tg.styles) ∧
    ((Blur tg).items = tg.items ∧ (Blur tg).currItemIndex = tg.currItemIndex ∧
      (Blur tg).width = tg.width ∧ (Blur tg).height = tg.height ∧
      (Blur tg).KeyMap = tg.KeyMap ∧ (Blur tg).styles = tg.styles) ∧
    ((Focus (Focus tg : TabGroup S × Cmd C).1 : TabGroup S × Cmd C)
        = (Focus tg : TabGroup S × Cmd C) ∧
      Blur (Blur tg) = Blur tg) :=
  ⟨⟨rfl, rfl, rfl⟩, ⟨rfl, rfl⟩, ⟨rfl, rfl, rfl, rfl, rfl, rfl⟩, ⟨rfl, rfl, rfl, rfl, rfl, rfl⟩,
    ⟨rfl, rfl⟩⟩

/-- The loop of `View` reads the group only through the index and the two title styles, and
the host only through `render`. -/
theorem ViewLoop_congr (h1 h2 : Host K O C P S) (tg1 tg2 : TabGroup S) (heap : Heap P)
    (hr : h1.render = h2.render) (hc : tg1.currItemIndex = tg2.currItemIndex)
    (hs : tg1.styles.NavbarTitleSelected = tg2.styles.NavbarTitleSelected)
    (hu : tg1.styles.NavbarTitleUnselected = tg2.styles.NavbarTitleUnselected)
    (items : List Ptr) :
    ∀ (i : Nat) (navbar : String),
      ViewLoop h1 tg1 heap i items navbar = ViewLoop h2 tg2 heap i items navbar := by
  induction items with
  | nil => intro i navbar; rfl
  | cons item rest ih =>
    intro i navbar
    simp only [ViewLoop, hr, hc, hs, hu, ih]

/-- The method `View` reads the group only through the item list, the index and the styles
other than the blurred border. -/
theorem View_congr (h : Host K O C P S) (tg1 tg2 : TabGroup S) (heap : Heap P)
    (hi : tg1.items = tg2.items) (hc : tg1.currItemIndex = tg2.currItemIndex)
    (hf : tg1.styles.FocusedBorder = tg2.styles.FocusedBorder)
    (hn : tg1.styles.Navbar = tg2.styles.Navbar)
    (hs : tg1.styles.NavbarTitleSelected = tg2.styles.NavbarTitleSelected)
    (hu : tg1.styles.NavbarTitleUnselected = tg2.styles.NavbarTitleUnselected) :
    View h tg1 heap = View h tg2 heap := by
  unfold View Items
  rw [ViewLoop_congr h h tg1 tg2 heap rfl hc hs hu, hi, hc, hf, hn]

/-- C20: two groups with the same items, index, width, height and styles, whatever their
focus flags, have the same `View`; replacing the blurred-border style does not change `View`
either, and neither does `Focus()` or `Blur()`. -/
theorem view_ignores_focus (h : Host K O C P S) (heap : Heap P) (tg1 tg2 : TabGroup S)
    (hi : tg1.items = tg2.items) (hc : tg1.currItemIndex = tg2.currItemIndex)
    (_hw : tg1.width = tg2.width) (_hh : tg1.height = tg2.height)
    (hs : tg1.styles = tg2.styles) :
    View h tg1 heap = View h tg2 heap ∧
      (∀ s : S, View h { tg1 with styles := { tg1.styles with BlurredBorder := s } } heap
        = View h tg1 heap) ∧
      View h (Focus tg1 : TabGroup S × Cmd C).1 heap = View h tg1 heap ∧
      View h (Blur tg1) heap = View h tg1 heap :=
  ⟨View_congr h tg1 tg2 heap hi hc (by rw [hs]) (by rw [hs]) (by rw [hs]) (by rw [hs]),
    fun _ => View_congr h _ tg1 heap rfl rfl rfl rfl rfl rfl,
    View_congr h _ tg1 heap rfl rfl rfl rfl rfl rfl,
    View_congr h _ tg1 heap rfl rfl rfl rfl rfl rfl⟩

/-- The statement of C20 at the group with the items A, B, C, focused and blurred. -/
theorem view_ignores_focus_witness :
    View demoHost (Focus demoGroup : TabGroup DemoStyle × Cmd (List Nat)).1 demoHeap
        = View demoHost (Blur demoGroup) demoHeap ∧
      (∀ s : DemoStyle,
        View demoHost
          { (Focus demoGroup : TabGroup DemoStyle × Cmd (List Nat)).1 with
            styles := { demoGroup.styles with BlurredBorder := s } } demoHeap
          = View demoHost (Focus demoGroup : TabGroup DemoStyle × Cmd (List Nat)).1 demoHeap) ∧
      View demoHost
          (Focus (Focus demoGroup : TabGroup DemoStyle × Cmd (List Nat)).1 :
            TabGroup DemoStyle × Cmd (List Nat)).1 demoHeap
        = View demoHost (Focus demoGroup : TabGroup DemoStyle × Cmd (List Nat)).1 demoHeap ∧
      View demoHost (Blur (Focus demoGroup : TabGroup DemoStyle × Cmd (List Nat)).1) demoHeap
        = View demoHost (Focus demoGroup : TabGroup DemoStyle × Cmd (List Nat)).1 demoHeap :=
  view_ignores_focus demoHost demoHeap
    (Focus demoGroup : TabGroup DemoStyle × Cmd (List Nat)).1 (Blur demoGroup)
    rfl rfl rfl rfl rfl

/-- Trimming the empty string leaves the empty string. -/
theorem TrimRight_empty (cutset : String) : TrimRight "" cutset = "" := rfl

/-- The slice access on an empty slice panics, whatever the index. -/
theorem index_nil (i : Int) : index [] i = Except.error Panic.indexOutOfRange := by
  unfold index
  split <;> rfl

/-- C16: on a group without items, whatever its index, `View` returns the focused-border
rendering of the navbar rendering of the empty text; the access `items[currItemIndex]`, which
would panic there, is not performed. -/
theorem View_empty (h : Host K O C P S) (tg : TabGroup S) (heap : Heap P)
    (he : tg.items = []) :
    View h tg heap
        = Except.ok (h.render tg.styles.FocusedBorder (h.render tg.styles.Navbar "")) ∧
      index tg.items tg.currItemIndex = Except.error Panic.indexOutOfRange := by
  constructor
  · unfold View Items
    rw [he]
    rfl
  · rw [he]
    exact index_nil _

/-- The statement of C16 at the group `New()` with the index moved out of range. -/
theorem View_empty_witness :
    View demoHost { New demoHost [] with currItemIndex := 5 } demoHeap
        = Except.ok (demoHost.render (New demoHost []).styles.FocusedBorder
            (demoHost.render (New demoHost []).styles.Navbar "")) ∧
      index ({ New demoHost [] with currItemIndex := 5 } : TabGroup DemoStyle).items 5
        = Except.error Panic.indexOutOfRange :=
  View_empty demoHost { New demoHost [] with currItemIndex := 5 } demoHeap rfl

/-- The slice access with an index in range returns the item at that position. -/
theorem index_ok (items : List Ptr) (i : Int) (h0 : 0 ≤ i) (h1 : i < (items.length : Int)) :
    ∃ p, items.get? i.toNat = some p ∧ index items i = Except.ok p := by
  have hlt : i.toNat < items.length := by omega
  refine ⟨items.get ⟨i.toNat, hlt⟩, List.get?_eq_get hlt, ?_⟩
  unfold index
  rw [if_pos h0, List.get?_eq_get hlt]

/-- The navbar text does not depend on the panels' `View`. -/
theorem navbarText_itemView (h : Host K O C P S) (tg : TabGroup S) (heap : Heap P)
    (v : P → String) :
    navbarText { h with itemView := v } tg heap = navbarText h tg heap := by
  unfold navbarText
  rw [ViewLoop_congr { h with itemView := v } h tg tg heap rfl rfl rfl rfl]

/-- On a group with at least one item `View` returns whenever the slice access does, with the
stack of the rendered navbar and the `View` of the accessed item in the focused border. -/
theorem View_of_index (h : Host K O C P S) (tg : TabGroup S) (heap : Heap P) (p : Ptr)
    (hN : 0 < tg.items.length) (hp : index tg.items tg.currItemIndex = Except.ok p) :
    View h tg heap = Except.ok (h.render tg.styles.FocusedBorder
      (h.joinVerticalTop
        [h.render tg.styles.Navbar (navbarText h tg heap), h.itemView (heap p).Groupable])) := by
  unfold View
  rw [if_pos (by omega), hp]
  rfl

/-- C17: on a non-empty group whose index is in range the slice access of `View` is in range
and `View` returns the focused-border rendering of the vertical stack of the rendered navbar
(on top) and the `View` of the item at the current index; the panels' `View` enters the
result only through its value at that item. -/
theorem View_active_panel (h : Host K O C P S) (tg : TabGroup S) (heap : Heap P)
    (hN : 0 < tg.items.length) (hr : InRange tg) :
    ∃ p, tg.items.get? tg.currItemIndex.toNat = some p ∧
      index tg.items tg.currItemIndex = Except.ok p ∧
      View h tg heap = Except.ok (h.render tg.styles.FocusedBorder
        (h.joinVerticalTop
          [h.render tg.styles.Navbar (navbarText h tg heap),
            h.itemView (heap p).Groupable])) ∧
      ∀ v : P → String, View { h with itemView := v } tg heap
        = Except.ok (h.render tg.styles.FocusedBorder
          (h.joinVerticalTop
            [h.render tg.styles.Navbar (navbarText h tg heap), v (heap p).Groupable])) := by
  obtain ⟨p, hg, hp⟩ := index_ok tg.items tg.currItemIndex hr.1 hr.2
  refine ⟨p, hg, hp, View_of_index h tg heap p hN hp, ?_⟩
  intro v
  rw [View_of_index { h with itemView := v } tg heap p hN hp, navbarText_itemView]

/-- The statement of C17 at the group with the items A, B, C and the index 0. -/
theorem View_active_panel_witness :
    ∃ p, demoGroup.items.get? demoGroup.currItemIndex.toNat = some p ∧
      index demoGroup.items demoGroup.currItemIndex = Except.ok p ∧
      View demoHost demoGroup demoHeap
        = Except.ok (demoHost.render demoGroup.styles.FocusedBorder
          (demoHost.joinVerticalTop
            [demoHost.render demoGroup.styles.Navbar (navbarText demoHost demoGroup demoHeap),
              demoHost.itemView (demoHeap p).Groupable])) ∧
      ∀ v : DemoPanel → String, View { demoHost with itemView := v } demoGroup demoHeap
        = Except.ok (demoHost.render demoGroup.styles.FocusedBorder
          (demoHost.joinVerticalTop
            [demoHost.render demoGroup.styles.Navbar (navbarText demoHost demoGroup demoHeap),
              v (demoHeap p).Groupable])) :=
  View_active_panel demoHost demoGroup demoHeap (by decide) (by decide)

end FocusAndView

section Construction

variable {K O C P S : Type}

/-- The constructor returns the default group whatever options it is given. -/
theorem New_eq_defaultGroup (h : Host K O C P S) (opts : List (TabOption S)) :
    New h opts = defaultGroup h :=
  rfl

/-- Without options the constructor agrees with its specification. -/
theorem New_nil_eq_NewSpec (h : Host K O C P S) : New h [] = NewSpec h [] :=
  rfl

/-- C11 (the code at the failing input): given the single option that replaces the `TabNext`
binding by a binding of the key n, `New` returns a group that still has the default
`TabNext` binding, while the default group with the option applied has the new one; the
option is not applied. -/
theorem New_ignores_options :
    (New demoHost [withTabNext (NewBinding "n" "n" "Next tab")]).KeyMap.TabNext
        = DefaultKeyMap.TabNext ∧
      (NewSpec demoHost [withTabNext (NewBinding "n" "n" "Next tab")]).KeyMap.TabNext
        = NewBinding "n" "n" "Next tab" ∧
      DefaultKeyMap.TabNext ≠ NewBinding "n" "n" "Next tab" ∧
      New demoHost [withTabNext (NewBinding "n" "n" "Next tab")]
        ≠ NewSpec demoHost [withTabNext (NewBinding "n" "n" "Next tab")] := by
  refine ⟨rfl, rfl, by decide, ?_⟩
  intro e
  have hk := congrArg (fun g : TabGroup DemoStyle => g.KeyMap.TabNext) e
  exact absurd hk (by decide)

end Construction

section Initialisation

variable {K O C P S : Type}

/-- The loop of `Init` is the initialisation of the specification: the commands it appends
are the commands of the items in item order. -/
theorem InitLoop_eq (h : Host K O C P S) (items : List Ptr) :
    ∀ (heap : Heap P) (cmds : List (Cmd C)),
      InitLoop h items heap cmds
        = ((initAll h items heap).1, cmds ++ (initAll h items heap).2) := by
  induction items with
  | nil => intro heap cmds; simp [InitLoop, initAll]
  | cons item rest ih =>
    intro heap cmds
    simp only [InitLoop, initAll, ih, List.append_assoc, List.singleton_append]

/-- The initialisation returns one command for each item. -/
theorem initAll_length (h : Host K O C P S) (items : List Ptr) :
    ∀ heap : Heap P, (initAll h items heap).2.length = items.length := by
  induction items with
  | nil => intro heap; rfl
  | cons item rest ih => intro heap; simp [initAll, ih]

/-- When no item occurs twice in the list, the commands of the initialisation are those that
the `Init` of each item returns on the state the item had before, in item order. -/
theorem initAll_nodup (h : Host K O C P S) (items : List Ptr) :
    ∀ heap : Heap P, items.Nodup →
      (initAll h items heap).2 = items.map fun p => (h.itemInit (heap p).Groupable).2 := by
  induction items with
  | nil => intro heap _; rfl
  | cons item rest ih =>
    intro heap hnd
    obtain ⟨hni, hnr⟩ := List.nodup_cons.mp hnd
    simp only [initAll, List.map_cons]
    rw [ih _ hnr]
    congr 1
    apply List.map_congr_left
    intro p m
    have hne : p ≠ item := fun e => hni (e ▸ m)
    rw [Function.update_noteq hne]

/-- C18: the list that `Init` hands to the batch holds, in item order, the command returned
by the `Init` of every item, one entry for each item whether the command is `nil` or not;
for an empty item list it is the empty list. -/
theorem Init_aggregates (h : Host K O C P S) (tg : TabGroup S) (heap : Heap P) :
    Init h tg heap = ((initAll h tg.items heap).1, h.batch (initAll h tg.items heap).2) ∧
      (initAll h tg.items heap).2.length = tg.items.length ∧
      (tg.items.Nodup → (initAll h tg.items heap).2
        = tg.items.map fun p => (h.itemInit (heap p).Groupable).2) ∧
      (tg.items = [] → Init h tg heap = (heap, h.batch [])) := by
  have e : Init h tg heap
      = ((initAll h tg.items heap).1, h.batch (initAll h tg.items heap).2) := by
    unfold Init
    rw [InitLoop_eq, List.nil_append]
  refine ⟨e, initAll_length h tg.items heap, initAll_nodup h tg.items heap, ?_⟩
  intro he
  rw [e, he]
  rfl

/-- The statement of C18 at the group with the items A, B, C, whose `Init` returns `nil`, and
at the group without items. -/
theorem Init_aggregates_witness :
    (initAll demoHost demoGroup.items demoHeap).2 = [none, none, none] ∧
      (Init demoHost demoGroup demoHeap).2 = demoHost.batch [none, none, none] ∧
      Init demoHost (New demoHost []) demoHeap = (demoHeap, demoHost.batch []) :=
  ⟨((Init_aggregates demoHost demoGroup demoHeap).2.2.1 (by decide)).trans rfl,
    (congrArg Prod.snd (Init_aggregates demoHost demoGroup demoHeap).1).trans rfl,
    (Init_aggregates demoHost (New demoHost []) demoHeap).2.2.2 rfl⟩

end Initialisation

section Sizing

variable {K O C P S : Type}

/-- After the loop of `SetSize` every item has received one `SetSize(w, ht)` for each of its
occurrences in the list, and nothing else of the item has changed. -/
theorem SetSizeLoop_apply (h : Host K O C P S) (w ht : Int) (items : List Ptr) :
    ∀ (heap : Heap P) (p : Ptr),
      SetSizeLoop h w ht items heap p
        = { heap p with
            Groupable := (fun g => h.itemSetSize g w ht)^[items.count p] (heap p).Groupable } := by
  induction items with
  | nil => intro heap p; rfl
  | cons item rest ih =>
    intro heap p
    simp only [SetSizeLoop]
    rw [ih]
    by_cases hp : p = item
    · subst hp
      rw [Function.update_same, List.count_cons_self, Function.iterate_succ_apply]
    · rw [Function.update_noteq hp, List.count_cons_of_ne hp]

/-- The last call that an item of the list receives in the loop of `SetSize` is
`SetSize(w, ht)`. -/
theorem SetSizeLoop_last (h : Host K O C P S) (w ht : Int) (items : List Ptr) (heap : Heap P)
    (p : Ptr) (hp : p ∈ items) :
    ∃ g, (SetSizeLoop h w ht items heap p).Groupable = h.itemSetSize g w ht := by
  rw [SetSizeLoop_apply]
  obtain ⟨n, hn⟩ : ∃ n, items.count p = n + 1 :=
    ⟨items.count p - 1, by have := List.count_pos_iff.mpr hp; omega⟩
  rw [hn]
  exact ⟨_, Function.iterate_succ_apply' _ _ _⟩

/-- C12: after `SetSize(w, ht)` the width is the Go difference of `w` and the horizontal
frame size that the focused-border style had before the call, which is the mathematical
difference whenever that fits a Go `int`, and the height is `ht`; every item has received
`SetSize(Width(), Height())` once for each of its occurrences in the item list, so exactly
once when no item occurs twice, whether it is the active one or not, and items outside the
list are left alone; the index, the item list and the focus flag are unchanged. -/
theorem SetSize_stores_and_propagates (h : Host K O C P S) (tg : TabGroup S) (heap : Heap P)
    (w ht : Int) :
    Width (SetSize h tg heap w ht).1
        = wrapInt (w - h.getHorizontalFrameSize tg.styles.FocusedBorder) ∧
      (-9223372036854775808 ≤ w - h.getHorizontalFrameSize tg.styles.FocusedBorder →
        w - h.getHorizontalFrameSize tg.styles.FocusedBorder ≤ maxInt →
        Width (SetSize h tg heap w ht).1
          = w - h.getHorizontalFrameSize tg.styles.FocusedBorder) ∧
      Height (SetSize h tg heap w ht).1 = ht ∧
      (∀ p, (SetSize h tg heap w ht).2 p
        = { heap p with
            Groupable :=
              (fun g => h.itemSetSize g (Width (SetSize h tg heap w ht).1)
                (Height (SetSize h tg heap w ht).1))^[tg.items.count p] (heap p).Groupable }) ∧
      (tg.items.Nodup → ∀ p ∈ tg.items, (SetSize h tg heap w ht).2 p
        = { heap p with
            Groupable := h.itemSetSize (heap p).Groupable (Width (SetSize h tg heap w ht).1)
              (Height (SetSize h tg heap w ht).1) }) ∧
      (∀ p, p ∉ tg.items → (SetSize h tg heap w ht).2 p = heap p) ∧
      (SetSize h tg heap w ht).1.currItemIndex = tg.currItemIndex ∧
      (SetSize h tg heap w ht).1.items = tg.items ∧
      (SetSize h tg heap w ht).1.focused = tg.focused := by
  have hall : ∀ p, (SetSize h tg heap w ht).2 p
      = { heap p with
          Groupable :=
            (fun g => h.itemSetSize g (Width (SetSize h tg heap w ht).1)
              (Height (SetSize h tg heap w ht).1))^[tg.items.count p] (heap p).Groupable } :=
    fun p => SetSizeLoop_apply h _ _ tg.items heap p
  refine ⟨rfl, ?_, rfl, hall, ?_, ?_, rfl, rfl, rfl⟩
  · intro h1 h2
    exact wrapInt_of_fits _ h1 h2
  · intro hnd p hp
    rw [hall p, List.count_eq_one_of_mem hnd hp]
    rfl
  · intro p hp
    rw [hall p, List.count_eq_zero_of_not_mem hp]
    rfl

/-- The statement of C12 at the group with the items A, B, C, whose focused border has the
frame size 0, for the size 80 by 24: the width is 80, the height 24, and the second item,
which is not the active one, has the size 80 by 24. -/
theorem SetSize_stores_and_propagates_witness :
    Width (SetSize demoHost demoGroup demoHeap 80 24).1 = 80 ∧
      Height (SetSize demoHost demoGroup demoHeap 80 24).1 = 24 ∧
      ((SetSize demoHost demoGroup demoHeap 80 24).2 2).Groupable.size = (80, 24) ∧
      (SetSize demoHost demoGroup demoHeap 80 24).2 9 = demoHeap 9 :=
  ⟨((SetSize_stores_and_propagates demoHost demoGroup demoHeap 80 24).2.1
      (by decide) (by decide)).trans rfl,
    (SetSize_stores_and_propagates demoHost demoGroup demoHeap 80 24).2.2.1,
    (congrArg (fun it : TabItem DemoPanel => it.Groupable.size)
      ((SetSize_stores_and_propagates demoHost demoGroup demoHeap 80 24).2.2.2.2.1
        (by decide) 2 (by decide))).trans rfl,
    (SetSize_stores_and_propagates demoHost demoGroup demoHeap 80 24).2.2.2.2.2.1 9
      (by decide)⟩

/-- C13: when assigning a width to a style does not change its horizontal frame size,
`SetSize(w1, h1)` followed by `SetSize(w2, h2)` leaves the same width and height as
`SetSize(w2, h2)` alone, the same width on the two border styles and the navbar style
(for every reading of the assigned width), and the same last size on every item of the list
(for every reading of the last size delivered); when assigning a width replaces the width
assigned before, the two groups are equal. -/
theorem SetSize_last_wins (h : Host K O C P S) (tg : TabGroup S) (heap : Heap P)
    (w1 h1 w2 h2 : Int)
    (hframe : ∀ (s : S) (w : Int),
      h.getHorizontalFrameSize (h.styleWidth s w) = h.getHorizontalFrameSize s) :
    Width (SetSizeTwice h tg heap w1 h1 w2 h2).1 = Width (SetSize h tg heap w2 h2).1 ∧
      Height (SetSizeTwice h tg heap w1 h1 w2 h2).1 = Height (SetSize h tg heap w2 h2).1 ∧
      (∀ getWidth : S → Int, (∀ s w, getWidth (h.styleWidth s w) = w) →
        getWidth (SetSizeTwice h tg heap w1 h1 w2 h2).1.styles.FocusedBorder
            = getWidth (SetSize h tg heap w2 h2).1.styles.FocusedBorder ∧
          getWidth (SetSizeTwice h tg heap w1 h1 w2 h2).1.styles.BlurredBorder
            = getWidth (SetSize h tg heap w2 h2).1.styles.BlurredBorder ∧
          getWidth (SetSizeTwice h tg heap w1 h1 w2 h2).1.styles.Navbar
            = getWidth (SetSize h tg heap w2 h2).1.styles.Navbar) ∧
      ((∀ (s : S) (a b : Int), h.styleWidth (h.styleWidth s a) b = h.styleWidth s b) →
        (SetSizeTwice h tg heap w1 h1 w2 h2).1 = (SetSize h tg heap w2 h2).1) ∧
      (∀ getSize : P → Int × Int, (∀ g w ht, getSize (h.itemSetSize g w ht) = (w, ht)) →
        ∀ p ∈ tg.items,
          getSize ((SetSizeTwice h tg heap w1 h1 w2 h2).2 p).Groupable
            = getSize ((SetSize h tg heap w2 h2).2 p).Groupable) := by
  have hf : h.getHorizontalFrameSize (SetSize h tg heap w1 h1).1.styles.FocusedBorder
      = h.getHorizontalFrameSize tg.styles.FocusedBorder := hframe _ _
  have hw : Width (SetSizeTwice h tg heap w1 h1 w2 h2).1 = Width (SetSize h tg heap w2 h2).1 := by
    show wrapInt (w2 - h.getHorizontalFrameSize (SetSize h tg heap w1 h1).1.styles.FocusedBorder)
      = wrapInt (w2 - h.getHorizontalFrameSize tg.styles.FocusedBorder)
    rw [hf]
  refine ⟨hw, rfl, ?_, ?_, ?_⟩
  · intro getWidth hg
    refine ⟨?_, ?_, ?_⟩
    · show getWidth (h.styleWidth _ (Width (SetSizeTwice h tg heap w1 h1 w2 h2).1))
        = getWidth (h.styleWidth _ (Width (SetSize h tg heap w2 h2).1))
      rw [hg, hg, hw]
    · show getWidth (h.styleWidth _ (Width (SetSizeTwice h tg heap w1 h1 w2 h2).1))
        = getWidth (h.styleWidth _ (Width (SetSize h tg heap w2 h2).1))
      rw [hg, hg, hw]
    · show getWidth (h.styleWidth _ (Width (SetSizeTwice h tg heap w1 h1 w2 h2).1))
        = getWidth (h.styleWidth _ (Width (SetSize h tg heap w2 h2).1))
      rw [hg, hg, hw]
  · intro hset
    unfold SetSizeTwice SetSize
    simp only [hframe, hset]
  · intro getSize hg p hp
    obtain ⟨g1, e1⟩ := SetSizeLoop_last h (Width (SetSizeTwice h tg heap w1 h1 w2 h2).1) h2
      tg.items (SetSize h tg heap w1 h1).2 p hp
    obtain ⟨g2, e2⟩ := SetSizeLoop_last h (Width (SetSize h tg heap w2 h2).1) h2
      tg.items heap p hp
    have a1 : ((SetSizeTwice h tg heap w1 h1 w2 h2).2 p).Groupable
        = h.itemSetSize g1 (Width (SetSizeTwice h tg heap w1 h1 w2 h2).1) h2 := e1
    have a2 : ((SetSize h tg heap w2 h2).2 p).Groupable
        = h.itemSetSize g2 (Width (SetSize h tg heap w2 h2).1) h2 := e2
    rw [a1, a2, hg, hg, hw]

/-- The statement of C13 at the group with the items A, B, C: the sizes 80 by 24 and then
120 by 40 against 120 by 40 alone. -/
theorem SetSize_last_wins_witness :
    Width (SetSizeTwice demoHost demoGroup demoHeap 80 24 120 40).1
        = Width (SetSize demoHost demoGroup demoHeap 120 40).1 ∧
      (SetSizeTwice demoHost demoGroup demoHeap 80 24 120 40).1
        = (SetSize demoHost demoGroup demoHeap 120 40).1 ∧
      ((SetSizeTwice demoHost demoGroup demoHeap 80 24 120 40).2 3).Groupable.size
        = ((SetSize demoHost demoGroup demoHeap 120 40).2 3).Groupable.size :=
  ⟨(SetSize_last_wins demoHost demoGroup demoHeap 80 24 120 40 (fun _ _ => rfl)).1,
    (SetSize_last_wins demoHost demoGroup demoHeap 80 24 120 40 (fun _ _ => rfl)).2.2.2.1
      (fun _ _ _ => rfl),
    (SetSize_last_wins demoHost demoGroup demoHeap 80 24 120 40 (fun _ _ => rfl)).2.2.2.2
      (fun g => g.size) (fun _ _ _ => rfl) 3 (by decide)⟩

end Sizing

section Navbar

variable {K O C P S : Type}

/-- The loop of `View` appends the styled titles, each followed by the separator. -/
theorem ViewLoop_eq (h : Host K O C P S) (tg : TabGroup S) (heap : Heap P) (items : List Ptr) :
    ∀ (i : Nat) (navbar : String),
      ViewLoop h tg heap i items navbar
        = navbar ++ withSep " • " (styledTitlesFrom h tg heap i items) := by
  induction items with
  | nil => intro i navbar; simp [ViewLoop, styledTitlesFrom, withSep]
  | cons item rest ih =>
    intro i navbar
    have ht : (if tg.currItemIndex = (i : Int) then
          h.render tg.styles.NavbarTitleSelected (heap item).Title
        else h.render tg.styles.NavbarTitleUnselected (heap item).Title)
        = renderTitle h tg (titleStyle tg i) (heap item).Title := by
      unfold titleStyle
      by_cases hc : tg.currItemIndex = (i : Int)
      · rw [if_pos hc, if_pos hc]; rfl
      · rw [if_neg hc, if_neg hc]; rfl
    simp only [ViewLoop, styledTitlesFrom, withSep, ih, ht, String.append_assoc]

/-- The text passed to the navbar style is the trimmed sequence of the styled titles, each
followed by the separator. -/
theorem navbarText_eq (h : Host K O C P S) (tg : TabGroup S) (heap : Heap P) :
    navbarText h tg heap = TrimRight (withSep " • " (styledTitles h tg heap)) "• " := by
  unfold navbarText Items styledTitles
  rw [ViewLoop_eq, String.empty_append]

theorem styledTitlesFrom_length (h : Host K O C P S) (tg : TabGroup S) (heap : Heap P)
    (items : List Ptr) :
    ∀ i : Nat, (styledTitlesFrom h tg heap i items).length = items.length := by
  induction items with
  | nil => intro i; rfl
  | cons item rest ih => intro i; simp [styledTitlesFrom, ih]

/-- The styled title at position `j` of a list that starts at position `i` is the title of
the item there, rendered with the title style of position `i + j`. -/
theorem styledTitlesFrom_get? (h : Host K O C P S) (tg : TabGroup S) (heap : Heap P)
    (items : List Ptr) :
    ∀ (i j : Nat) (p : Ptr), items.get? j = some p →
      (styledTitlesFrom h tg heap i items).get? j
        = some (renderTitle h tg (titleStyle tg (i + j)) (heap p).Title) := by
  induction items with
  | nil => intro i j p hp; simp at hp
  | cons item rest ih =>
    intro i j p hp
    cases j with
    | zero =>
      simp only [List.get?_cons_zero, Option.some.injEq] at hp
      subst hp
      simp [styledTitlesFrom]
    | succ j =>
      simp only [List.get?_cons_succ] at hp
      simp only [styledTitlesFrom, List.get?_cons_succ]
      rw [ih (i + 1) j p hp]
      have : i + 1 + j = i + (j + 1) := by omega
      rw [this]

/-- C15: the text `View` passes to the navbar style is built from the styled titles, one for
each item in item order, and the title at position `i` is rendered with the selected style
if and only if `i` is the current index and with the unselected style otherwise; when the
index is in range exactly one position has the selected style. -/
theorem active_title_highlighted (h : Host K O C P S) (tg : TabGroup S) (heap : Heap P) :
    navbarText h tg heap = TrimRight (withSep " • " (styledTitles h tg heap)) "• " ∧
      (styledTitles h tg heap).length = tg.items.length ∧
      (∀ (i : Nat) (p : Ptr), tg.items.get? i = some p →
        (styledTitles h tg heap).get? i
          = some (renderTitle h tg (titleStyle tg i) (heap p).Title)) ∧
      (∀ t, renderTitle h tg TitleStyle.selected t = h.render tg.styles.NavbarTitleSelected t) ∧
      (∀ t, renderTitle h tg TitleStyle.unselected t
        = h.render tg.styles.NavbarTitleUnselected t) ∧
      (∀ i : Nat, titleStyle tg i = TitleStyle.selected ↔ tg.currItemIndex = (i : Int)) ∧
      (∀ i : Nat, titleStyle tg i = TitleStyle.unselected ↔ tg.currItemIndex ≠ (i : Int)) ∧
      (InRange tg → ∃! i : Nat, i < tg.items.length ∧ titleStyle tg i = TitleStyle.selected) := by
  have hsel : ∀ i : Nat, titleStyle tg i = TitleStyle.selected ↔ tg.currItemIndex = (i : Int) := by
    intro i
    unfold titleStyle
    by_cases hc : tg.currItemIndex = (i : Int)
    · simp [hc]
    · simp [hc]
  have hun : ∀ i : Nat,
      titleStyle tg i = TitleStyle.unselected ↔ tg.currItemIndex ≠ (i : Int) := by
    intro i
    unfold titleStyle
    by_cases hc : tg.currItemIndex = (i : Int)
    · simp [hc]
    · simp [hc]
  refine ⟨navbarText_eq h tg heap, styledTitlesFrom_length h tg heap tg.items 0, ?_,
    fun _ => rfl, fun _ => rfl, hsel, hun, ?_⟩
  · intro i p hp
    have e := styledTitlesFrom_get? h tg heap tg.items 0 i p hp
    rw [Nat.zero_add] at e
    exact e
  · intro hr
    obtain ⟨h0, h1⟩ := hr
    refine ⟨tg.currItemIndex.toNat, ⟨by omega, (hsel _).mpr (by omega)⟩, ?_⟩
    rintro j ⟨_, hj⟩
    have := (hsel j).mp hj
    omega

/-- The statement of C15 at the group with the items A, B, C and the index 0: the first
title has the selected style, the two others the unselected style. -/
theorem active_title_highlighted_witness :
    (∃! i : Nat, i < demoGroup.items.length ∧ titleStyle demoGroup i = TitleStyle.selected) ∧
      titleStyle demoGroup 0 = TitleStyle.selected ∧
      titleStyle demoGroup 1 = TitleStyle.unselected ∧
      titleStyle demoGroup 2 = TitleStyle.unselected ∧
      (styledTitles demoHost demoGroup demoHeap).get? 1
        = some (demoHost.render demoGroup.styles.NavbarTitleUnselected "B") :=
  ⟨(active_title_highlighted demoHost demoGroup demoHeap).2.2.2.2.2.2.2 (by decide),
    ((active_title_highlighted demoHost demoGroup demoHeap).2.2.2.2.2.1 0).mpr (by decide),
    ((active_title_highlighted demoHost demoGroup demoHeap).2.2.2.2.2.2.1 1).mpr (by decide),
    ((active_title_highlighted demoHost demoGroup demoHeap).2.2.2.2.2.2.1 2).mpr (by decide),
    ((active_title_highlighted demoHost demoGroup demoHeap).2.2.1 1 2 rfl).trans rfl⟩

/-- Trimming drops a trailing separator. -/
theorem TrimRight_append_sep (s : String) : TrimRight (s ++ " • ") "• " = TrimRight s "• " := by
  unfold TrimRight
  have hd : (s ++ " • ").data = s.data ++ [' ', '•', ' '] := rfl
  have hall : ∀ a ∈ [' ', '•', ' '].reverse, ("• ".data.contains a) = true := by decide
  rw [hd, List.reverse_append, List.dropWhile_append_of_pos hall]

/-- Trimming leaves a string alone whose last character is not in the cutset. -/
theorem TrimRight_of_last (s cutset : String) (c : Char) (hl : s.data.getLast? = some c)
    (hc : cutset.data.contains c = false) : TrimRight s cutset = s := by
  obtain ⟨ys, hy⟩ := List.getLast?_eq_some_iff.mp hl
  unfold TrimRight
  apply String.ext
  show (s.data.reverse.dropWhile fun c => cutset.data.contains c).reverse = s.data
  have hn : ¬ ((fun c => cutset.data.contains c) c = true) := by
    show ¬ (cutset.data.contains c = true)
    rw [hc]
    decide
  rw [hy, List.reverse_append, List.reverse_singleton, List.singleton_append,
    List.dropWhile_cons_of_neg hn, List.reverse_cons, List.reverse_reverse]

/-- The strings of a non-empty list, each followed by the separator, are the joined strings
followed by one separator. -/
theorem withSep_eq_joinWith (sep : String) (l : List String) (hne : l ≠ []) :
    withSep sep l = joinWith sep l ++ sep := by
  induction l with
  | nil => exact absurd rfl hne
  | cons a rest ih =>
    cases rest with
    | nil => simp [withSep, joinWith]
    | cons b rest =>
      have e := ih (List.cons_ne_nil b rest)
      simp only [withSep] at e
      simp only [withSep, joinWith, e, String.append_assoc]

/-- The joined strings end with the last string of the list. -/
theorem joinWith_getLast (sep : String) (l : List String) :
    ∀ t, l.getLast? = some t → ∃ pre, joinWith sep l = pre ++ t := by
  induction l with
  | nil => intro t ht; simp at ht
  | cons a rest ih =>
    intro t ht
    cases rest with
    | nil =>
      simp only [List.getLast?_singleton, Option.some.injEq] at ht
      exact ⟨"", by rw [← ht, String.empty_append]; rfl⟩
    | cons b rest =>
      rw [List.getLast?_cons_cons] at ht
      obtain ⟨pre, hp⟩ := ih t ht
      exact ⟨a ++ (sep ++ pre), by simp only [joinWith, hp, String.append_assoc]⟩

/-- The text passed to the navbar style is the trimmed join of the styled titles. -/
theorem navbarText_eq_trim_join (h : Host K O C P S) (tg : TabGroup S) (heap : Heap P) :
    navbarText h tg heap = TrimRight (joinWith " • " (styledTitles h tg heap)) "• " := by
  rw [navbarText_eq]
  by_cases hne : styledTitles h tg heap = []
  · rw [hne]
    rfl
  · rw [withSep_eq_joinWith _ _ hne, TrimRight_append_sep]

/-- C14 as amended: the text `View` passes to the navbar style is the styled titles, in item
order, joined with the separator between consecutive titles, with the trailing spaces and
bullets removed; it is exactly the join, nothing added or removed after the last styled
title, whenever the last styled title is not empty and ends in neither a space nor a
bullet.  With the items A and B, the index 0 and title styles that render text unchanged
the text is `A • B`. -/
theorem navbar_join_trimmed (h : Host K O C P S) (tg : TabGroup S) (heap : Heap P) :
    navbarText h tg heap = TrimRight (joinWith " • " (styledTitles h tg heap)) "• " ∧
      (∀ (t : String) (c : Char), (styledTitles h tg heap).getLast? = some t →
        t.data.getLast? = some c → c ≠ ' ' → c ≠ '•' →
        navbarText h tg heap = joinWith " • " (styledTitles h tg heap)) ∧
      (styledTitles plainHost pairGroup demoHeap = ["A", "B"] ∧
        pairGroup.currItemIndex = 0 ∧
        navbarText plainHost pairGroup demoHeap = "A • B") := by
  refine ⟨navbarText_eq_trim_join h tg heap, ?_, ⟨rfl, rfl, by decide⟩⟩
  intro t c ht hc h1 h2
  obtain ⟨pre, hp⟩ := joinWith_getLast " • " (styledTitles h tg heap) t ht
  rw [navbarText_eq_trim_join]
  apply TrimRight_of_last _ _ c
  · rw [hp, String.data_append, List.getLast?_append, hc]
    rfl
  · show (['•', ' '].contains c) = false
    simp [h1, h2]

/-- The amended C14 at the items A and B with title styles that render text unchanged: the
last styled title is `B`, and the text passed to the navbar style is the join. -/
theorem navbar_join_trimmed_witness :
    navbarText plainHost pairGroup demoHeap
      = joinWith " • " (styledTitles plainHost pairGroup demoHeap) :=
  (navbar_join_trimmed plainHost pairGroup demoHeap).2.1 "B" 'B' rfl rfl (by decide) (by decide)

/-- C14 as stated fails: with the items titled `A` and `B ` (a space at the end), the
index 0 and title styles that render text unchanged, the join of the styled titles is
`A • B ` with the space, while the text `View` passes to the navbar style is `A • B`: the
space after the last styled title is removed. -/
theorem navbar_join_counterexample :
    pairGroup.items = [1, 2] ∧
      styledTitles plainHost pairGroup spacedHeap = ["A", "B "] ∧
      joinWith " • " (styledTitles plainHost pairGroup spacedHeap) = "A • B " ∧
      navbarText plainHost pairGroup spacedHeap = "A • B" ∧
      navbarText plainHost pairGroup spacedHeap
        ≠ joinWith " • " (styledTitles plainHost pairGroup spacedHeap) := by
  refine ⟨rfl, by decide, by decide, by decide, by decide⟩

end Navbar

end tabgroup
